import Mathlib

/-
Verification of the PromethION directory-convention scanner and
metadata-extraction engine of bcf_nanopore (bcf_nanopore/nanopore/promethion.py),
via a shallow embedding in Lean.

Paths are modelled as lists of components (os.path.dirname = dropLast,
os.path.basename = last component).  JSON documents, as returned by Python
json.loads, are modelled by the inductive JVal; the stdlib JSON parser itself
is outside the repository, so a file's parse result is carried directly in
the model of file contents (none = the text does not parse as JSON).
-/

namespace Promethion

/-- JSON values as produced by Python json.loads.  Numbers are modelled as
integers; no report field in scope carries a fractional value. -/
inductive JVal where
  | null
  | bool (b : Bool)
  | num (n : Int)
  | str (s : String)
  | arr (xs : List JVal)
  | obj (fields : List (String × JVal))
deriving Repr

/-- Kinds of Python exception that the embedded code distinguishes:
KeyError is caught by the two `except KeyError` handlers, every other
exception propagates to the walker (which catches all of them per report). -/
inductive PyErr where
  | key    -- KeyError
  | type   -- TypeError / AttributeError on a wrongly-shaped value
  | value  -- parse failures (no marker line, invalid JSON, unsupported file)
deriving Repr, DecidableEq

/-- Python truthiness of a JSON value. -/
def JVal.truthy : JVal → Bool
  | .null => false
  | .bool b => b
  | .num n => n != 0
  | .str s => s != ""
  | .arr xs => !xs.isEmpty
  | .obj fs => !fs.isEmpty

/-- Truthiness of an attribute that may be Python None. -/
def truthyOpt : Option JVal → Bool
  | none => false
  | some v => v.truthy

/-- Lookup in a Python dict built from a list of key/value pairs: a later
binding of the same key overwrites an earlier one, so the last binding wins. -/
def dictGet (fields : List (String × JVal)) (k : String) : Option JVal :=
  (fields.reverse.find? (fun kv => kv.1 == k)).map (fun kv => kv.2)

/-- Python subscription v[k] with a string key: KeyError on an object without
the key, TypeError on any non-object value. -/
def JVal.getItem : JVal → String → Except PyErr JVal
  | .obj fs, k =>
    match dictGet fs k with
    | some v => .ok v
    | none => .error .key
  | _, _ => .error .type

/-- Python str.startswith on character lists: the second list is an initial
segment of the first. -/
def chStartsWith : List Char → List Char → Bool
  | _, [] => true
  | [], _ :: _ => false
  | a :: as, b :: bs => a == b && chStartsWith as bs

/-- Python str.startswith. -/
def strStartsWith (s pat : String) : Bool := chStartsWith s.data pat.data

/-- Python str.endswith. -/
def strEndsWith (s pat : String) : Bool := chStartsWith s.data.reverse pat.data.reverse

/-- Characters accepted by the hash token class [a-z0-9]. -/
def lowerOrDigit (c : Char) : Bool := c.isLower || c.isDigit

/-- One regex step ([0-9]+)_ : a nonempty greedy digit run followed by a
literal underscore; returns the digit group and the remainder after the
underscore.  Greedy deterministic parsing is equivalent to the regex engine
here because the digit class cannot match the underscore that must follow. -/
def parseDigitsThen (cs : List Char) : Option (List Char × List Char) :=
  match cs.dropWhile Char.isDigit with
  | '_' :: rest =>
    if cs.takeWhile Char.isDigit = [] then none
    else some (cs.takeWhile Char.isDigit, rest)
  | _ => none

/-- Final regex step ([a-z0-9]+)$ : Python re "$" matches at the end of the
string or just before a single newline that ends the string. -/
def parseHashEnd (cs : List Char) : Option (List Char) :=
  match cs.dropWhile lowerOrDigit with
  | [] => if cs.takeWhile lowerOrDigit = [] then none else some (cs.takeWhile lowerOrDigit)
  | ['\n'] => if cs.takeWhile lowerOrDigit = [] then none else some (cs.takeWhile lowerOrDigit)
  | _ => none

/-- The five capture groups of RE_FLOW_CELL_NAME
"^([0-9]+)_([0-9]+)_([0-9][A-Z])_(P[A-Z][A-Z][0-9]+)_([a-z0-9]+)$";
group 3 is the pair (c1, c2), group 4 is P followed by u1, u2 and ds. -/
structure FCGroups where
  d : List Char
  t : List Char
  c1 : Char
  c2 : Char
  u1 : Char
  u2 : Char
  ds : List Char
  h : List Char
deriving Repr, DecidableEq

/-- Shallow embedding of RE_FLOW_CELL_NAME.match: the anchored regex match of
"^([0-9]+)_([0-9]+)_([0-9][A-Z])_(P[A-Z][A-Z][0-9]+)_([a-z0-9]+)$" on a
string given as its character list, returning the capture groups. -/
def matchFlowCellName (cs : List Char) : Option FCGroups :=
  match parseDigitsThen cs with
  | none => none
  | some (d, r2) =>
    match parseDigitsThen r2 with
    | none => none
    | some (t, r3) =>
      match r3 with
      | c1 :: c2 :: '_' :: 'P' :: u1 :: u2 :: r5 =>
        if c1.isDigit && c2.isUpper && u1.isUpper && u2.isUpper then
          match parseDigitsThen r5 with
          | none => none
          | some (ds, r7) =>
            match parseHashEnd r7 with
            | none => none
            | some h => some ⟨d, t, c1, c2, u1, u2, ds, h⟩
        else none
      | _ => none

/-- is_flow_cell_name from promethion.py: bool(RE_FLOW_CELL_NAME.match(name)). -/
def is_flow_cell_name (name : String) : Bool :=
  (matchFlowCellName name.data).isSome

/-- get_flow_cell_id from promethion.py: group 4 on a match, "" otherwise. -/
def get_flow_cell_id (name : String) : String :=
  match matchFlowCellName name.data with
  | some g => String.mk ('P' :: g.u1 :: g.u2 :: g.ds)
  | none => ""

/-- get_flow_cell_datestamp from promethion.py: group 1 on a match, "" otherwise. -/
def get_flow_cell_datestamp (name : String) : String :=
  match matchFlowCellName name.data with
  | some g => String.mk g.d
  | none => ""

example : is_flow_cell_name "20240422_1039_1E_PAW18123_e180e8f3" = true := rfl
example : is_flow_cell_name "20250304_0906_1B_PBC48601_4fb37e4a" = true := rfl
example : is_flow_cell_name "Rebasecalling" = false := rfl
example : get_flow_cell_id "20240422_1039_1E_PAW18123_e180e8f3" = "PAW18123" := rfl
example : get_flow_cell_id "Rebasecalling" = "" := rfl
example : get_flow_cell_datestamp "20240422_1039_1E_PAW18123_e180e8f3" = "20240422" := rfl

/-- One line of a MinKNOW HTML report, as seen by HtmlReport.extract_json:
either one of the two known JavaScript marker lines (carrying the json.loads
result of the embedded fragment, none when the fragment is not valid JSON),
or any other line. -/
inductive HtmlLine where
  | reportDataJson (payload : Option JVal)  -- line "const reportDataJson = ...;
  | reportData (payload : Option JVal)      -- line "const reportData=..."
  | other
deriving Repr

/-- HtmlReport.extract_json: scan the lines for the first marker line and
parse the embedded fragment; raise when no marker line exists or the
fragment does not parse as JSON. -/
def html_extract_json : List HtmlLine → Except PyErr JVal
  | [] => .error .value
  | .reportDataJson p :: _ =>
    match p with
    | some j => .ok j
    | none => .error .value
  | .reportData p :: _ =>
    match p with
    | some j => .ok j
    | none => .error .value
  | .other :: rest => html_extract_json rest

/-- Key normalisation of BasecallsMetadata._extract_section: lower case with
spaces and hyphens replaced by underscores and periods removed.  Char.toLower
is ASCII-only (all observed titles are ASCII). -/
def normalizeTitle (s : String) : String :=
  String.mk (s.data.filterMap (fun c =>
    if c = ' ' then some '_'
    else if c = '-' then some '_'
    else if c = '.' then none
    else some c.toLower))

/-- Python iteration "for x in v" over a JSON value: arrays yield elements,
strings yield one-character strings, objects yield their keys, everything
else raises TypeError.  (Objects reaching this code come from json.loads and
so have no duplicate keys.) -/
def iterElems : JVal → Except PyErr (List JVal)
  | .arr xs => .ok xs
  | .str s => .ok (s.data.map (fun c => JVal.str (String.mk [c])))
  | .obj fs => .ok (fs.map (fun kv => JVal.str kv.1))
  | _ => .error .type

/-- One item of a report section: s["title"].lower()... normalisation paired
with s["value"]; a missing key raises KeyError, a non-object item or a
non-string title raises a TypeError/AttributeError class of failure. -/
def extractItem (it : JVal) : Except PyErr (String × JVal) :=
  match it.getItem "title" with
  | .error e => .error e
  | .ok tv =>
    match tv with
    | .str ts =>
      match it.getItem "value" with
      | .error e => .error e
      | .ok v => .ok (normalizeTitle ts, v)
    | _ => .error .type

/-- BasecallsMetadata._extract_section: json_data[name] iterated into a dict
mapping normalised titles to values.  The subscription raises KeyError when
the section is absent and TypeError when json_data is not an object. -/
def extract_section (j : JVal) (name : String) : Except PyErr (List (String × JVal)) :=
  match j.getItem name with
  | .error e => .error e
  | .ok sec =>
    match iterElems sec with
    | .error e => .error e
    | .ok items => items.mapM extractItem

/-- BasecallsMetadata: every attribute starts as Python None (modelled by
none) and is filled from report files. -/
structure BasecallsMetadata where
  html_json_data : Option JVal := none
  json_data : Option JVal := none
  flow_cell_id : Option JVal := none
  flow_cell_type : Option JVal := none
  kit : Option JVal := none
  basecalling : Option JVal := none
  modified_basecalling : Option JVal := none
  modifications : Option JVal := none
  trim_barcodes : Option JVal := none
  software_versions : Option (List (String × JVal)) := none
  basecalling_model : Option JVal := none
  basecalling_config : Option JVal := none
deriving Repr, Inhabited

/-- Python equality test self.modified_basecalling == "On". -/
def isOn (v : JVal) : Bool :=
  match v with
  | .str s => s == "On"
  | _ => false

/-- BasecallsMetadata.load_from_report_html.  The result is the record after
the call together with the exception it raises, if any: attribute
assignments made before the raising access are kept, modelling Python
in-place mutation.  Section extraction happens before any field assignment
(except html_json_data); the five lookups flow_cell_id, flow_cell_type,
kit_type, basecalling and modified_basecalling are hard subscriptions that
raise KeyError when absent, while modifications (tried under two key names
when modified basecalling is On) and trim_barcodes are tolerant lookups. -/
def load_from_report_html (m : BasecallsMetadata) (lines : List HtmlLine) :
    BasecallsMetadata × Option PyErr :=
  match html_extract_json lines with
  | .error e => (m, some e)
  | .ok j =>
    let m1 := { m with html_json_data := some j }
    match extract_section j "run_settings" with
    | .error e => (m1, some e)
    | .ok settings =>
      match extract_section j "run_setup" with
      | .error e => (m1, some e)
      | .ok setup =>
        match extract_section j "software_versions" with
        | .error e => (m1, some e)
        | .ok sw =>
          match dictGet setup "flow_cell_id" with
          | none => (m1, some .key)
          | some fcid =>
            let m2 := { m1 with flow_cell_id := some fcid }
            match dictGet setup "flow_cell_type" with
            | none => (m2, some .key)
            | some fct =>
              let m3 := { m2 with flow_cell_type := some fct }
              match dictGet setup "kit_type" with
              | none => (m3, some .key)
              | some kt =>
                let m4 := { m3 with kit := some kt }
                match dictGet settings "basecalling" with
                | none => (m4, some .key)
                | some bc =>
                  let m5 := { m4 with basecalling := some bc }
                  match dictGet settings "modified_basecalling" with
                  | none => (m5, some .key)
                  | some mb =>
                    let mods : Option JVal :=
                      if isOn mb then
                        if truthyOpt (dictGet settings "modifications") then
                          dictGet settings "modifications"
                        else dictGet settings "modified_base_context"
                      else none
                    ({ m5 with
                        modified_basecalling := some mb
                        modifications := mods
                        trim_barcodes := dictGet settings "trim_barcodes"
                        software_versions := some sw }, none)

/-- The nested subscription chain
acquisition["acquisition_run_info"]["config_summary"][field]. -/
def configChain (a : JVal) (field : String) : Except PyErr JVal :=
  match a.getItem "acquisition_run_info" with
  | .error e => .error e
  | .ok b =>
    match b.getItem "config_summary" with
    | .error e => .error e
    | .ok c => c.getItem field

/-- One acquisition's handling of the basecalling model: filled only while
still falsy; a KeyError in the chain is caught by the inner handler, any
other exception propagates. -/
def fillModelStep (m : BasecallsMetadata) (a : JVal) : Except PyErr BasecallsMetadata :=
  if truthyOpt m.basecalling_model then .ok m
  else
    match configChain a "basecalling_model_version" with
    | .ok v => .ok { m with basecalling_model := some v }
    | .error .key => .ok m
    | .error e => .error e

/-- One acquisition's handling of the basecalling config, as fillModelStep. -/
def fillConfigStep (m : BasecallsMetadata) (a : JVal) : Except PyErr BasecallsMetadata :=
  if truthyOpt m.basecalling_config then .ok m
  else
    match configChain a "basecalling_config_filename" with
    | .ok v => .ok { m with basecalling_config := some v }
    | .error .key => .ok m
    | .error e => .error e

/-- The loop over acquisitions in load_from_report_json: each of the two
fields is filled only while still falsy, a KeyError in a chain is caught by
the inner handler, and any other exception aborts the loop keeping the
assignments already made. -/
def jsonAcqLoop : BasecallsMetadata → List JVal → BasecallsMetadata × Option PyErr
  | m, [] => (m, none)
  | m, a :: rest =>
    match fillModelStep m a with
    | .error e => (m, some e)
    | .ok m1 =>
      match fillConfigStep m1 a with
      | .error e => (m1, some e)
      | .ok m2 => jsonAcqLoop m2 rest

/-- BasecallsMetadata.load_from_report_json on a file whose json.loads result
is the argument (none when the file does not parse as JSON, in which case
JsonReport.extract_json raises).  A KeyError from json_data["acquisitions"]
is caught by the outer handler and silently ignored; a TypeError (non-object
root, non-iterable value, wrongly-typed entries) propagates. -/
def load_from_report_json (m : BasecallsMetadata) (content : Option JVal) :
    BasecallsMetadata × Option PyErr :=
  match content with
  | none => (m, some .value)
  | some j =>
    let m1 := { m with json_data := some j }
    match j.getItem "acquisitions" with
    | .error .key => (m1, none)
    | .error e => (m1, some e)
    | .ok acqs =>
      match iterElems acqs with
      | .error e => (m1, some e)
      | .ok elems =>
        match jsonAcqLoop m1 elems with
        | (m2, some PyErr.key) => (m2, none)
        | other => other

/-- Contents of a file in the model: an HTML report (its lines), a JSON file
(its json.loads result, none when unparsable), or anything else. -/
inductive FileContent where
  | html (lines : List HtmlLine)
  | json (parsed : Option JVal)
  | other
deriving Repr

/-- BasecallsMetadata.load_from_report: dispatch on the file extension.  A
file whose name and contents disagree behaves like a parse failure (an HTML
scan of non-HTML text finds no marker line; json.loads of non-JSON text
raises), and an unsupported extension raises. -/
def load_from_report (m : BasecallsMetadata) (fname : String) (content : FileContent) :
    BasecallsMetadata × Option PyErr :=
  if strEndsWith fname ".html" then
    match content with
    | .html lines => load_from_report_html m lines
    | _ => (m, some .value)
  else if strEndsWith fname ".json" then
    match content with
    | .json p => load_from_report_json m p
    | _ => (m, some .value)
  else (m, some .value)

/-- A directory tree: a name, the subdirectories in listing order, and the
plain files in listing order. -/
inductive FSTree where
  | mk (name : String) (subdirs : List FSTree) (files : List (String × FileContent))
deriving Repr

def FSTree.name : FSTree → String
  | .mk n _ _ => n

def FSTree.subdirs : FSTree → List FSTree
  | .mk _ s _ => s

def FSTree.files : FSTree → List (String × FileContent)
  | .mk _ _ f => f

/-- os.path.basename on a component-list path. -/
def basename (p : List String) : String := p.getLast?.getD ""

/-- os.path.dirname on a component-list path. -/
def dirname (p : List String) : List String := p.dropLast

/-- os.path.exists(path/nm) inside directory t. -/
def FSTree.hasEntry (t : FSTree) (nm : String) : Bool :=
  t.subdirs.any (fun c => c.name == nm) || t.files.any (fun f => f.1 == nm)

/-- os.listdir: all entry names of the directory in listing order. -/
def FSTree.listdir (t : FSTree) : List String :=
  t.subdirs.map FSTree.name ++ t.files.map Prod.fst

/-- Opening file nm inside directory t: fails (IsADirectoryError) when the
name refers to a subdirectory, or when the entry does not exist. -/
def FSTree.readFile (t : FSTree) (nm : String) : Except PyErr FileContent :=
  if t.subdirs.any (fun c => c.name == nm) then .error .value
  else
    match t.files.find? (fun f => f.1 == nm) with
    | some f => .ok f.2
    | none => .error .value

mutual

/-- os.walk in top-down order: the directory itself followed by the walk of
each subdirectory in listing order, each entry carrying its path. -/
def walkNode (pp : List String) : FSTree → List (List String × FSTree)
  | .mk n subs fs => (pp ++ [n], .mk n subs fs) :: walkList (pp ++ [n]) subs
termination_by structural t => t

def walkList (pp : List String) : List FSTree → List (List String × FSTree)
  | [] => []
  | c :: cs => walkNode pp c ++ walkList pp cs
termination_by structural l => l

end

/-- Classification outcome of one directory of the walk. -/
inductive DirTag where
  | flowcell
  | basecalls
deriving Repr, DecidableEq

/-- The per-directory child loop of ProjectDir.__init__: scan the child
directory names in listing order and stop at the first child that is
literally "pass" (basecalls), or is "pod5" or ends with "_pass" (flow cell). -/
def classifyChildren : List String → Option DirTag
  | [] => none
  | d :: ds =>
    if d = "pass" then some .basecalls
    else if d = "pod5" || strEndsWith d "_pass" then some .flowcell
    else classifyChildren ds

/-- The rule applied to a single child directory name. -/
def childRule (d : String) : Option DirTag :=
  if d = "pass" then some .basecalls
  else if d = "pod5" || strEndsWith d "_pass" then some .flowcell
  else none

/-- Collect the flow-cell and basecalls directory candidates from the walk
entries, in walk order.  (ProjectDir keeps them in Python sets; on a real
filesystem the walk never yields one path twice, so a list is faithful.) -/
def collectDirs : List (List String × FSTree) → List (List String × FSTree) × List (List String × FSTree)
  | [] => ([], [])
  | (p, n) :: rest =>
    let acc := collectDirs rest
    match classifyChildren (n.subdirs.map FSTree.name) with
    | some .basecalls => (acc.1, (p, n) :: acc.2)
    | some .flowcell => ((p, n) :: acc.1, acc.2)
    | none => acc

/-- Result of the report/sample-sheet loop shared by FlowCell.__init__ and
BasecallsDir.__init__.  diagnostics records the names of report files whose
metadata load raised (printed and ignored by the walker). -/
structure ReportScan where
  metadata : BasecallsMetadata
  reports : List String
  sample_sheet : Option String
  diagnostics : List String
deriving Repr

/-- One step of the loop over os.listdir: report files are collected, html
and json reports are loaded into the shared metadata record with any
exception downgraded to a diagnostic, sample sheet files are remembered. -/
def scanEntryStep (t : FSTree) (acc : ReportScan) (f : String) : ReportScan :=
  if strStartsWith f "report_" then
    let acc1 := { acc with reports := acc.reports ++ [f] }
    if strEndsWith f ".html" || strEndsWith f ".json" then
      match t.readFile f with
      | .error _ => { acc1 with diagnostics := acc1.diagnostics ++ [f] }
      | .ok content =>
        match load_from_report acc1.metadata f content with
        | (m, none) => { acc1 with metadata := m }
        | (m, some _) =>
          { acc1 with metadata := m, diagnostics := acc1.diagnostics ++ [f] }
    else acc1
  else if strStartsWith f "sample_sheet_" then { acc with sample_sheet := some f }
  else acc

/-- The full report/sample-sheet loop over a directory's entries. -/
def scanReports (t : FSTree) : ReportScan :=
  t.listdir.foldl (scanEntryStep t) ⟨{}, [], none, []⟩

/-- FlowCell entity: the attributes FlowCell.__init__ assigns. -/
structure FlowCellEnt where
  path : List String
  name : String
  pool : String
  run : Option String
  id : String
  datestamp : String
  metadata : BasecallsMetadata
  pod5 : Option (List String)
  bam_pass : Option (List String)
  fastq_pass : Option (List String)
  reports : List String
  sample_sheet : Option String
deriving Repr, Inhabited

/-- FlowCell.__init__ on directory t at the given path, with the optional
project directory.  Raises (Except.error) exactly when the directory's
basename is not a flow cell name; the diagnostics list carries the names of
report files whose metadata load failed. -/
def FlowCell.init (path : List String) (project_dir : Option (List String))
    (t : FSTree) : Except String (FlowCellEnt × List String) :=
  let pool_dir := dirname path
  let run_dir := dirname pool_dir
  let run : Option String :=
    match project_dir with
    | none => some (basename run_dir)
    | some pd => if pd = pool_dir ∨ pd = run_dir then none else some (basename run_dir)
  if is_flow_cell_name (basename path) then
    let rs := scanReports t
    .ok ({ path := path
           name := basename path
           pool := basename pool_dir
           run := run
           id := get_flow_cell_id (basename path)
           datestamp := get_flow_cell_datestamp (basename path)
           metadata := rs.metadata
           pod5 := if t.hasEntry "pod5" then some (path ++ ["pod5"])
                   else if t.hasEntry "pod5_pass" then some (path ++ ["pod5_pass"])
                   else none
           bam_pass := if t.hasEntry "bam_pass" then some (path ++ ["bam_pass"]) else none
           fastq_pass := if t.hasEntry "fastq_pass" then some (path ++ ["fastq_pass"]) else none
           reports := rs.reports
           sample_sheet := rs.sample_sheet }, rs.diagnostics)
  else .error (basename path ++ ": not a flow cell name?")

/-- BasecallsDir entity: the attributes BasecallsDir.__init__ assigns. -/
structure BasecallsEnt where
  path : List String
  name : String
  parent : String
  pool : Option String
  run : Option String
  metadata : BasecallsMetadata
  pass_dir : Option (List String)
  reports : List String
  sample_sheet : Option String
deriving Repr, Inhabited

/-- BasecallsDir.__init__ on directory t at the given path with the optional
pool and run; never raises. -/
def BasecallsDir.init (path : List String) (pool run : Option String)
    (t : FSTree) : BasecallsEnt × List String :=
  let rs := scanReports t
  ({ path := path
     name := basename path
     parent := basename (dirname path)
     pool := pool
     run := run
     metadata := rs.metadata
     pass_dir := if t.hasEntry "pass" then some (path ++ ["pass"]) else none
     reports := rs.reports
     sample_sheet := rs.sample_sheet }, rs.diagnostics)

/-- ProjectDir model: project path and name with the two sorted entity lists. -/
structure ProjectModel where
  path : List String
  name : String
  flow_cells : List FlowCellEnt
  basecalls_dirs : List BasecallsEnt
deriving Repr, Inhabited

/-- Stable insertion used by sortByName: an element is placed before the
first element whose name is not smaller, so elements with equal names keep
their input order. -/
def insertByName {α : Type} (name : α → String) (x : α) : List α → List α
  | [] => [x]
  | y :: ys => if name y < name x then y :: insertByName name x ys else x :: y :: ys

/-- Stable sort by name, as Python sorted(..., key=lambda x: x.name). -/
def sortByName {α : Type} (name : α → String) : List α → List α
  | [] => []
  | x :: xs => insertByName name x (sortByName name xs)

/-- ProjectDir.__init__ on the tree root located at parent ++ [root.name]:
walk the tree, classify every directory by its children, build a FlowCell
for every flow-cell candidate (propagating naming failures), sort them by
name, then build a BasecallsDir for every basecalls candidate whose path
contains the pool name of some flow cell, taking pool and run from the
first such flow cell in the name-sorted order; candidates with no matching
pool are dropped.  Both entity lists are sorted by name. -/
def scan (parent : List String) (root : FSTree) : Except String ProjectModel :=
  let projPath := parent ++ [root.name]
  let cands := collectDirs (walkNode parent root)
  match cands.1.mapM (fun pn => (FlowCell.init pn.1 (some projPath) pn.2).map Prod.fst) with
  | .error e => .error e
  | .ok fcs =>
    let fcs := sortByName FlowCellEnt.name fcs
    let bcs := cands.2.filterMap (fun pn =>
      (fcs.find? (fun fc => pn.1.contains fc.pool)).map
        (fun fc => (BasecallsDir.init pn.1 (some fc.pool) fc.run pn.2).1))
    .ok { path := projPath
          name := root.name
          flow_cells := fcs
          basecalls_dirs := sortByName BasecallsEnt.name bcs }

/-! ## Generic takeWhile and dropWhile facts used for the regex model -/

theorem takeWhile_all_append {α : Type} (p : α → Bool) (l : List α) (c : α) (r : List α)
    (hl : ∀ x ∈ l, p x = true) (hc : p c = false) :
    (l ++ c :: r).takeWhile p = l ∧ (l ++ c :: r).dropWhile p = c :: r := by
  induction l with
  | nil => simp [List.takeWhile_cons, List.dropWhile_cons, hc]
  | cons a l ih =>
    have ha : p a = true := hl a (by simp)
    have ih2 := ih (fun x hx => hl x (by simp [hx]))
    simp [List.takeWhile_cons, List.dropWhile_cons, ha, ih2.1, ih2.2]

theorem takeWhile_all_self {α : Type} (p : α → Bool) (l : List α)
    (hl : ∀ x ∈ l, p x = true) :
    l.takeWhile p = l ∧ l.dropWhile p = [] := by
  induction l with
  | nil => simp
  | cons a l ih =>
    have ha : p a = true := hl a (by simp)
    have ih2 := ih (fun x hx => hl x (by simp [hx]))
    simp [List.takeWhile_cons, List.dropWhile_cons, ha, ih2.1, ih2.2]

theorem parseDigitsThen_decomp (d r : List Char) (hne : d ≠ [])
    (hall : ∀ c ∈ d, c.isDigit = true) :
    parseDigitsThen (d ++ '_' :: r) = some (d, r) := by
  have h := takeWhile_all_append Char.isDigit d '_' r hall (by decide)
  simp [parseDigitsThen, h.1, h.2, hne]

theorem parseDigitsThen_sound {cs d r : List Char}
    (h : parseDigitsThen cs = some (d, r)) :
    cs = d ++ '_' :: r ∧ d ≠ [] ∧ ∀ c ∈ d, c.isDigit = true := by
  unfold parseDigitsThen at h
  split at h
  next rest heq =>
    split at h
    · exact absurd h (by simp)
    next hne =>
      injection h with h'
      obtain ⟨h1, h2⟩ := Prod.mk.injEq .. ▸ h'
      subst h1; subst h2
      refine ⟨?_, hne, fun c hc => List.mem_takeWhile_imp hc⟩
      conv_lhs => rw [← List.takeWhile_append_dropWhile (p := Char.isDigit) (l := cs)]
      rw [heq]
  next => exact absurd h (by simp)

theorem parseHashEnd_decomp (h tail : List Char) (hne : h ≠ [])
    (hall : ∀ c ∈ h, lowerOrDigit c = true) (ht : tail = [] ∨ tail = ['\n']) :
    parseHashEnd (h ++ tail) = some h := by
  rcases ht with rfl | rfl
  · have hh := takeWhile_all_self lowerOrDigit h hall
    simp only [List.append_nil]
    simp [parseHashEnd, hh.1, hh.2, hne]
  · have hh := takeWhile_all_append lowerOrDigit h '\n' [] hall (by decide)
    simp [parseHashEnd, hh.1, hh.2, hne]

theorem parseHashEnd_sound {cs h : List Char} (hp : parseHashEnd cs = some h) :
    (cs = h ∨ cs = h ++ ['\n']) ∧ h ≠ [] ∧ ∀ c ∈ h, lowerOrDigit c = true := by
  unfold parseHashEnd at hp
  split at hp
  next heq =>
    split at hp
    · exact absurd hp (by simp)
    next hne =>
      injection hp with hp'
      subst hp'
      refine ⟨Or.inl ?_, hne, fun c hc => List.mem_takeWhile_imp hc⟩
      conv_lhs => rw [← List.takeWhile_append_dropWhile (p := lowerOrDigit) (l := cs)]
      rw [heq]; simp
  next heq =>
    split at hp
    · exact absurd hp (by simp)
    next hne =>
      injection hp with hp'
      subst hp'
      refine ⟨Or.inr ?_, hne, fun c hc => List.mem_takeWhile_imp hc⟩
      conv_lhs => rw [← List.takeWhile_append_dropWhile (p := lowerOrDigit) (l := cs)]
      rw [heq]
  next => exact absurd hp (by simp)

/-! ## Declarative reading of RE_FLOW_CELL_NAME -/

/-- The concatenation of the five groups with their separators. -/
def FCGroups.core (g : FCGroups) : List Char :=
  g.d ++ '_' :: (g.t ++ '_' :: g.c1 :: g.c2 :: '_' :: 'P' :: g.u1 :: g.u2 :: (g.ds ++ '_' :: g.h))

/-- The character-class conditions of the five groups. -/
def FCGroups.WF (g : FCGroups) : Prop :=
  g.d ≠ [] ∧ (∀ c ∈ g.d, c.isDigit = true) ∧
  g.t ≠ [] ∧ (∀ c ∈ g.t, c.isDigit = true) ∧
  g.c1.isDigit = true ∧ g.c2.isUpper = true ∧
  g.u1.isUpper = true ∧ g.u2.isUpper = true ∧
  g.ds ≠ [] ∧ (∀ c ∈ g.ds, c.isDigit = true) ∧
  g.h ≠ [] ∧ (∀ c ∈ g.h, lowerOrDigit c = true)

/-- Declarative statement that a string matches RE_FLOW_CELL_NAME: it splits
into the five groups (with an optional trailing newline, per Python re "$"). -/
def FlowCellSpec (s : String) : Prop :=
  ∃ g : FCGroups, g.WF ∧ (s.data = g.core ∨ s.data = g.core ++ ['\n'])

theorem matchFlowCellName_complete (g : FCGroups) (tail : List Char)
    (hwf : g.WF) (ht : tail = [] ∨ tail = ['\n']) :
    matchFlowCellName (g.core ++ tail) = some g := by
  obtain ⟨hd, hdall, htne, htall, hc1, hc2, hu1, hu2, hds, hdsall, hh, hhall⟩ := hwf
  have e0 : g.core ++ tail =
      g.d ++ '_' :: (g.t ++ '_' :: g.c1 :: g.c2 :: '_' :: 'P' :: g.u1 :: g.u2 ::
        (g.ds ++ '_' :: (g.h ++ tail))) := by
    simp [FCGroups.core]
  have e1 := parseDigitsThen_decomp g.d
    (g.t ++ '_' :: g.c1 :: g.c2 :: '_' :: 'P' :: g.u1 :: g.u2 :: (g.ds ++ '_' :: (g.h ++ tail)))
    hd hdall
  have e2 := parseDigitsThen_decomp g.t
    (g.c1 :: g.c2 :: '_' :: 'P' :: g.u1 :: g.u2 :: (g.ds ++ '_' :: (g.h ++ tail)))
    htne htall
  have e3 := parseDigitsThen_decomp g.ds (g.h ++ tail) hds hdsall
  have e4 := parseHashEnd_decomp g.h tail hh hhall ht
  rw [e0]
  simp [matchFlowCellName, e1, e2, e3, e4, hc1, hc2, hu1, hu2]

theorem matchFlowCellName_sound {cs : List Char} {g : FCGroups}
    (h : matchFlowCellName cs = some g) :
    g.WF ∧ (cs = g.core ∨ cs = g.core ++ ['\n']) := by
  unfold matchFlowCellName at h
  split at h
  · exact absurd h (by simp)
  next d r2 hp1 =>
    split at h
    · exact absurd h (by simp)
    next t r3 hp2 =>
      split at h
      next c1 c2 u1 u2 r5 =>
        split at h
        next hcond =>
          split at h
          · exact absurd h (by simp)
          next ds r7 hp3 =>
            split at h
            · exact absurd h (by simp)
            next hh hp4 =>
              injection h with h'
              obtain ⟨e1, hd, hdall⟩ := parseDigitsThen_sound hp1
              obtain ⟨e2, ht, htall⟩ := parseDigitsThen_sound hp2
              obtain ⟨e3, hds, hdsall⟩ := parseDigitsThen_sound hp3
              obtain ⟨e4, hhn, hhall⟩ := parseHashEnd_sound hp4
              simp only [Bool.and_eq_true] at hcond
              subst h'
              constructor
              · exact ⟨hd, hdall, ht, htall, hcond.1.1.1, hcond.1.1.2,
                  hcond.1.2, hcond.2, hds, hdsall, hhn, hhall⟩
              · rcases e4 with e4 | e4
                · exact Or.inl (by simp [FCGroups.core, e1, e2, e3, e4])
                · exact Or.inr (by simp [FCGroups.core, e1, e2, e3, e4])
        next => exact absurd h (by simp)
      next => exact absurd h (by simp)

/-- The flow-cell name pattern exactly as claim C1 words it, modelled from
the claim for comparison with the source regex: 8 digits, underscore,
4 digits, underscore, digit + uppercase letter, underscore, an uppercase
letter followed by two uppercase letters and a digit run, underscore,
nonempty lowercase alphanumerics, no partial matches. -/
def claimedFlowCellName : List Char → Bool
  | d1 :: d2 :: d3 :: d4 :: d5 :: d6 :: d7 :: d8 :: '_' ::
      t1 :: t2 :: t3 :: t4 :: '_' :: p1 :: p2 :: '_' :: rest =>
    [d1, d2, d3, d4, d5, d6, d7, d8, t1, t2, t3, t4].all Char.isDigit &&
    p1.isDigit && p2.isUpper &&
    (match rest with
     | u1 :: u2 :: u3 :: rest2 =>
       u1.isUpper && u2.isUpper && u3.isUpper &&
       (match rest2.dropWhile Char.isDigit with
        | '_' :: hs =>
          !(rest2.takeWhile Char.isDigit).isEmpty && !hs.isEmpty && hs.all lowerOrDigit
        | _ => false)
     | _ => false)
  | _ => false

/-- String version of the claimed pattern. -/
def claimedFlowCellNameStr (s : String) : Bool := claimedFlowCellName s.data

/-- C1 counterexample: the code accepts "1_2_3A_PAB1_a" (one-digit datestamp
and time tokens, flow-cell id with a single digit) although it does not
match the pattern the claim describes, so the claimed equivalence is false.
The claimed pattern itself does accept ordinary flow-cell names. -/
theorem C1_counterexample :
    is_flow_cell_name "1_2_3A_PAB1_a" = true ∧
    claimedFlowCellNameStr "1_2_3A_PAB1_a" = false ∧
    claimedFlowCellNameStr "20240513_0829_1A_PAW15419_465bb23f" = true := by
  refine ⟨rfl, rfl, rfl⟩

/-- C1 (amended): is_flow_cell_name accepts exactly the strings splitting as
DATESTAMP_TIME_POSITION_FLOWCELLID_HASH where DATESTAMP and TIME are
nonempty digit runs (of any length), POSITION is a digit followed by an
uppercase letter, FLOWCELLID is the literal letter P followed by two
uppercase letters and a nonempty digit run, HASH is nonempty lowercase
alphanumerics, optionally followed by one trailing newline (Python re "$");
on a match get_flow_cell_id and get_flow_cell_datestamp return the
FLOWCELLID and DATESTAMP tokens, on a non-match both return "". -/
theorem C1_flow_cell_name (s : String) :
    (is_flow_cell_name s = true ↔ FlowCellSpec s) ∧
    (∀ g : FCGroups, g.WF → (s.data = g.core ∨ s.data = g.core ++ ['\n']) →
      get_flow_cell_id s = String.mk ('P' :: g.u1 :: g.u2 :: g.ds) ∧
      get_flow_cell_datestamp s = String.mk g.d) ∧
    (is_flow_cell_name s = false →
      get_flow_cell_id s = "" ∧ get_flow_cell_datestamp s = "") := by
  refine ⟨⟨fun h => ?_, fun h => ?_⟩, fun g hwf hdec => ?_, fun h => ?_⟩
  · unfold is_flow_cell_name at h
    rw [Option.isSome_iff_exists] at h
    obtain ⟨g, hg⟩ := h
    obtain ⟨hwf, hdec⟩ := matchFlowCellName_sound hg
    exact ⟨g, hwf, hdec⟩
  · obtain ⟨g, hwf, hdec⟩ := h
    have : matchFlowCellName s.data = some g := by
      rcases hdec with hdec | hdec
      · rw [hdec, ← List.append_nil g.core]
        exact matchFlowCellName_complete g [] hwf (Or.inl rfl)
      · rw [hdec]
        exact matchFlowCellName_complete g ['\n'] hwf (Or.inr rfl)
    simp [is_flow_cell_name, this]
  · have hm : matchFlowCellName s.data = some g := by
      rcases hdec with hdec | hdec
      · rw [hdec, ← List.append_nil g.core]
        exact matchFlowCellName_complete g [] hwf (Or.inl rfl)
      · rw [hdec]
        exact matchFlowCellName_complete g ['\n'] hwf (Or.inr rfl)
    constructor
    · simp [get_flow_cell_id, hm]
    · simp [get_flow_cell_datestamp, hm]
  · unfold is_flow_cell_name at h
    rcases hm : matchFlowCellName s.data with _ | g
    · constructor
      · simp [get_flow_cell_id, hm]
      · simp [get_flow_cell_datestamp, hm]
    · rw [hm] at h; simp at h

/-- Concrete groups of the name 20240513_0829_1A_PAW15419_465bb23f. -/
def fcGroupsEx : FCGroups :=
  ⟨"20240513".data, "0829".data, '1', 'A', 'A', 'W', "15419".data, "465bb23f".data⟩

/-- Witness for C1: the amended theorem applied to a matching and to a
non-matching concrete name, all hypotheses discharged. -/
theorem C1_witness :
    get_flow_cell_id "20240513_0829_1A_PAW15419_465bb23f" = "PAW15419" ∧
    get_flow_cell_datestamp "20240513_0829_1A_PAW15419_465bb23f" = "20240513" ∧
    get_flow_cell_id "Rebasecalling" = "" := by
  refine ⟨((C1_flow_cell_name "20240513_0829_1A_PAW15419_465bb23f").2.1
      fcGroupsEx (by unfold FCGroups.WF; decide) (Or.inl (by decide))).1,
    ((C1_flow_cell_name "20240513_0829_1A_PAW15419_465bb23f").2.1
      fcGroupsEx (by unfold FCGroups.WF; decide) (Or.inl (by decide))).2,
    ((C1_flow_cell_name "Rebasecalling").2.2 rfl).1⟩

/-! ## Field-update facts about the JSON acquisition loop -/

theorem fillModelStep_ok {m : BasecallsMetadata} {a : JVal} {m1 : BasecallsMetadata}
    (h : fillModelStep m a = .ok m1) :
    m1.html_json_data = m.html_json_data ∧ m1.json_data = m.json_data ∧
    m1.flow_cell_id = m.flow_cell_id ∧ m1.flow_cell_type = m.flow_cell_type ∧
    m1.kit = m.kit ∧ m1.basecalling = m.basecalling ∧
    m1.modified_basecalling = m.modified_basecalling ∧
    m1.modifications = m.modifications ∧ m1.trim_barcodes = m.trim_barcodes ∧
    m1.software_versions = m.software_versions ∧
    m1.basecalling_config = m.basecalling_config ∧
    (truthyOpt m.basecalling_model = true → m1.basecalling_model = m.basecalling_model) := by
  unfold fillModelStep at h
  split at h
  · injection h with h'; subst h'; simp_all
  · split at h <;> first
      | (injection h with h'; subst h'; simp_all)
      | exact absurd h (by simp)

theorem fillConfigStep_ok {m : BasecallsMetadata} {a : JVal} {m1 : BasecallsMetadata}
    (h : fillConfigStep m a = .ok m1) :
    m1.html_json_data = m.html_json_data ∧ m1.json_data = m.json_data ∧
    m1.flow_cell_id = m.flow_cell_id ∧ m1.flow_cell_type = m.flow_cell_type ∧
    m1.kit = m.kit ∧ m1.basecalling = m.basecalling ∧
    m1.modified_basecalling = m.modified_basecalling ∧
    m1.modifications = m.modifications ∧ m1.trim_barcodes = m.trim_barcodes ∧
    m1.software_versions = m.software_versions ∧
    m1.basecalling_model = m.basecalling_model ∧
    (truthyOpt m.basecalling_config = true → m1.basecalling_config = m.basecalling_config) := by
  unfold fillConfigStep at h
  split at h
  · injection h with h'; subst h'; simp_all
  · split at h <;> first
      | (injection h with h'; subst h'; simp_all)
      | exact absurd h (by simp)

theorem jsonAcqLoop_fields (l : List JVal) (m : BasecallsMetadata) :
    ((jsonAcqLoop m l).1.html_json_data = m.html_json_data ∧
     (jsonAcqLoop m l).1.json_data = m.json_data ∧
     (jsonAcqLoop m l).1.flow_cell_id = m.flow_cell_id ∧
     (jsonAcqLoop m l).1.flow_cell_type = m.flow_cell_type ∧
     (jsonAcqLoop m l).1.kit = m.kit ∧
     (jsonAcqLoop m l).1.basecalling = m.basecalling ∧
     (jsonAcqLoop m l).1.modified_basecalling = m.modified_basecalling ∧
     (jsonAcqLoop m l).1.modifications = m.modifications ∧
     (jsonAcqLoop m l).1.trim_barcodes = m.trim_barcodes ∧
     (jsonAcqLoop m l).1.software_versions = m.software_versions) ∧
    (truthyOpt m.basecalling_model = true →
      (jsonAcqLoop m l).1.basecalling_model = m.basecalling_model) ∧
    (truthyOpt m.basecalling_config = true →
      (jsonAcqLoop m l).1.basecalling_config = m.basecalling_config) := by
  induction l generalizing m with
  | nil => simp [jsonAcqLoop]
  | cons a rest ih =>
    unfold jsonAcqLoop
    rcases h1 : fillModelStep m a with e | m1
    · simp only [h1]; simp
    obtain ⟨a1, a2, a3, a4, a5, a6, a7, a8, a9, a10, a11, a12⟩ := fillModelStep_ok h1
    rcases h2 : fillConfigStep m1 a with e | m2
    · simp only [h1, h2]
      exact ⟨⟨a1, a2, a3, a4, a5, a6, a7, a8, a9, a10⟩, fun h => a12 h, fun _ => a11⟩
    obtain ⟨b1, b2, b3, b4, b5, b6, b7, b8, b9, b10, b11, b12⟩ := fillConfigStep_ok h2
    have ihm := ih m2
    obtain ⟨⟨q1, q2, q3, q4, q5, q6, q7, q8, q9, q10⟩, qm, qc⟩ := ihm
    simp only [h1, h2]
    refine ⟨⟨q1.trans (b1.trans a1), q2.trans (b2.trans a2), q3.trans (b3.trans a3),
      q4.trans (b4.trans a4), q5.trans (b5.trans a5), q6.trans (b6.trans a6),
      q7.trans (b7.trans a7), q8.trans (b8.trans a8), q9.trans (b9.trans a9),
      q10.trans (b10.trans a10)⟩, ?_, ?_⟩
    · intro hm
      have e1 : m1.basecalling_model = m.basecalling_model := a12 hm
      have hm1 : truthyOpt m1.basecalling_model = true := by rw [e1]; exact hm
      have hm2 : truthyOpt m2.basecalling_model = true := by rw [b11]; exact hm1
      exact (qm hm2).trans (b11.trans e1)
    · intro hc
      have hc1 : truthyOpt m1.basecalling_config = true := by rw [a11]; exact hc
      have e2 : m2.basecalling_config = m1.basecalling_config := b12 hc1
      have hc2 : truthyOpt m2.basecalling_config = true := by rw [e2]; exact hc1
      exact (qc hc2).trans (e2.trans (a11))

/-! ## C5: outer-shape handling of load_from_report_json -/

theorem jsonAcqLoop_key_tolerant (l : List JVal) (m : BasecallsMetadata)
    (h : ∀ a ∈ l, configChain a "basecalling_model_version" = .error .key ∧
      configChain a "basecalling_config_filename" = .error .key) :
    jsonAcqLoop m l = (m, none) := by
  induction l with
  | nil => rfl
  | cons a rest ih =>
    have ha := h a (by simp)
    have h1 : fillModelStep m a = .ok m := by
      unfold fillModelStep
      split
      · rfl
      · rw [ha.1]
    have h2 : fillConfigStep m a = .ok m := by
      unfold fillConfigStep
      split
      · rfl
      · rw [ha.2]
    unfold jsonAcqLoop
    simp only [h1, h2]
    exact ih (fun a ha' => h a (by simp [ha']))

/-- C5 counterexample: a JSON object whose root lacks the "acquisitions" key
is accepted silently — the KeyError is swallowed by the outer handler, no
ParseError reaches the caller, and both fields stay unset. -/
theorem C5_counterexample :
    load_from_report_json {} (some (JVal.obj [])) =
      ({ json_data := some (JVal.obj []) }, none) := rfl

/-- C5 (amended): a root object without the "acquisitions" key is tolerated
silently (the KeyError from the subscription is caught and both fields stay
as they were); absence of acquisition_run_info entries in the acquisitions
is likewise silent; the parse error raised to the caller is for a file that
does not parse as JSON at all (a wrongly-typed document can also raise a
TypeError, which is not a KeyError and is not caught). -/
theorem C5_json_outer_shape (m : BasecallsMetadata) (fs : List (String × JVal))
    (acqs : List JVal) :
    (dictGet fs "acquisitions" = none →
      load_from_report_json m (some (JVal.obj fs)) =
        ({ m with json_data := some (JVal.obj fs) }, none)) ∧
    (load_from_report_json m none = (m, some PyErr.value)) ∧
    ((∀ a ∈ acqs, ∃ afs, a = JVal.obj afs ∧ dictGet afs "acquisition_run_info" = none) →
      load_from_report_json m (some (JVal.obj [("acquisitions", JVal.arr acqs)])) =
        ({ m with json_data := some (JVal.obj [("acquisitions", JVal.arr acqs)]) }, none)) := by
  refine ⟨fun h => ?_, rfl, fun h => ?_⟩
  · simp [load_from_report_json, JVal.getItem, h]
  · have hchain : ∀ a ∈ acqs, configChain a "basecalling_model_version" = .error .key ∧
        configChain a "basecalling_config_filename" = .error .key := by
      intro a ha
      obtain ⟨afs, rfl, hget⟩ := h a ha
      constructor <;> simp [configChain, JVal.getItem, hget]
    have hloop := jsonAcqLoop_key_tolerant acqs
      { m with json_data := some (JVal.obj [("acquisitions", JVal.arr acqs)]) } hchain
    simp [load_from_report_json, JVal.getItem, dictGet, iterElems, hloop]

/-- Witness for C5: the amended theorem applied to concrete documents. -/
theorem C5_witness :
    load_from_report_json {} (some (JVal.obj [("other", JVal.null)])) =
      ({ json_data := some (JVal.obj [("other", JVal.null)]) }, none) ∧
    load_from_report_json {} none = ({}, some PyErr.value) ∧
    load_from_report_json {} (some (JVal.obj [("acquisitions",
        JVal.arr [JVal.obj [("foo", JVal.null)]])])) =
      ({ json_data := some (JVal.obj [("acquisitions",
          JVal.arr [JVal.obj [("foo", JVal.null)]])]) }, none) :=
  ⟨(C5_json_outer_shape {} [("other", JVal.null)] []).1 rfl,
   (C5_json_outer_shape {} [] []).2.1,
   (C5_json_outer_shape {} [] [JVal.obj [("foo", JVal.null)]]).2.2
     (by intro a ha; simp at ha; subst ha; exact ⟨[("foo", JVal.null)], rfl, rfl⟩)⟩

/-! ## C4: which parses overwrite and which only fill -/

/-- A well-formed run_setup/run_settings/software_versions document carrying
a given flow-cell id, shaped like the MinKNOW v25 reports in the test data. -/
def htmlDocFC (idv : String) : JVal :=
  JVal.obj [
    ("run_setup", JVal.arr [
      JVal.obj [("title", JVal.str "Flow cell ID"), ("value", JVal.str idv)],
      JVal.obj [("title", JVal.str "Flow cell type"), ("value", JVal.str "FLO-PRO114M")],
      JVal.obj [("title", JVal.str "Kit type"), ("value", JVal.str "SQK-PCB114-24")]]),
    ("run_settings", JVal.arr [
      JVal.obj [("title", JVal.str "Basecalling"), ("value", JVal.str "High-accuracy model 400bps")],
      JVal.obj [("title", JVal.str "Modified basecalling"), ("value", JVal.str "Off")]]),
    ("software_versions", JVal.arr [
      JVal.obj [("title", JVal.str "MinKNOW"), ("value", JVal.str "25.03.7")]])]

def c4linesA : List HtmlLine := [.reportDataJson (some (htmlDocFC "PAW11111"))]

def c4linesB : List HtmlLine := [.reportData (some (htmlDocFC "PBC22222"))]

/-- C4 counterexample: a second successful HTML parse overwrites the
flow_cell_id that the first successful parse had set, so a later parse does
not only fill still-unset fields. -/
theorem C4_counterexample :
    (load_from_report_html {} c4linesA).1.flow_cell_id = some (JVal.str "PAW11111") ∧
    (load_from_report_html (load_from_report_html {} c4linesA).1 c4linesB).1.flow_cell_id
      = some (JVal.str "PBC22222") := ⟨rfl, rfl⟩

theorem load_html_preserves (m : BasecallsMetadata) (lines : List HtmlLine) :
    (load_from_report_html m lines).1.basecalling_model = m.basecalling_model ∧
    (load_from_report_html m lines).1.basecalling_config = m.basecalling_config ∧
    (load_from_report_html m lines).1.json_data = m.json_data := by
  unfold load_from_report_html
  repeat' split
  all_goals simp

theorem load_json_cases (m : BasecallsMetadata) (c : Option JVal) :
    (load_from_report_json m c).1 = m ∨
    ∃ j : JVal, ∃ elems : List JVal,
      (load_from_report_json m c).1 = { m with json_data := some j } ∨
      (load_from_report_json m c).1 =
        (jsonAcqLoop { m with json_data := some j } elems).1 := by
  rcases c with _ | j
  · exact Or.inl rfl
  rcases hg : j.getItem "acquisitions" with e | acqs
  · rcases e <;> exact Or.inr ⟨j, [], Or.inl (by simp [load_from_report_json, hg])⟩
  rcases hi : iterElems acqs with e | elems
  · exact Or.inr ⟨j, [], Or.inl (by simp [load_from_report_json, hg, hi])⟩
  rcases hl : jsonAcqLoop { m with json_data := some j } elems with ⟨m2, e⟩
  have hres : (load_from_report_json m (some j)).1 = m2 := by
    rcases e with _ | e
    · simp [load_from_report_json, hg, hi, hl]
    · rcases e <;> simp [load_from_report_json, hg, hi, hl]
  exact Or.inr ⟨j, elems, Or.inr (by simp [hres, hl])⟩

theorem load_json_preserves (m : BasecallsMetadata) (c : Option JVal) :
    ((load_from_report_json m c).1.html_json_data = m.html_json_data ∧
     (load_from_report_json m c).1.flow_cell_id = m.flow_cell_id ∧
     (load_from_report_json m c).1.flow_cell_type = m.flow_cell_type ∧
     (load_from_report_json m c).1.kit = m.kit ∧
     (load_from_report_json m c).1.basecalling = m.basecalling ∧
     (load_from_report_json m c).1.modified_basecalling = m.modified_basecalling ∧
     (load_from_report_json m c).1.modifications = m.modifications ∧
     (load_from_report_json m c).1.trim_barcodes = m.trim_barcodes ∧
     (load_from_report_json m c).1.software_versions = m.software_versions) ∧
    (truthyOpt m.basecalling_model = true →
      (load_from_report_json m c).1.basecalling_model = m.basecalling_model) ∧
    (truthyOpt m.basecalling_config = true →
      (load_from_report_json m c).1.basecalling_config = m.basecalling_config) := by
  rcases load_json_cases m c with h | ⟨j, elems, h | h⟩
  · rw [h]
    exact ⟨⟨rfl, rfl, rfl, rfl, rfl, rfl, rfl, rfl, rfl⟩, fun _ => rfl, fun _ => rfl⟩
  · rw [h]
    exact ⟨⟨rfl, rfl, rfl, rfl, rfl, rfl, rfl, rfl, rfl⟩, fun _ => rfl, fun _ => rfl⟩
  · rw [h]
    have hf := jsonAcqLoop_fields elems { m with json_data := some j }
    obtain ⟨⟨q1, q2, q3, q4, q5, q6, q7, q8, q9, q10⟩, qm, qc⟩ := hf
    exact ⟨⟨q1, q3, q4, q5, q6, q7, q8, q9, q10⟩,
      fun hm => qm (by simpa using hm), fun hc => qc (by simpa using hc)⟩

/-- C4 (amended): an HTML parse overwrites every HTML-derived field
unconditionally but never touches basecalling_model, basecalling_config or
json_data; a JSON parse overwrites json_data, fills basecalling_model and
basecalling_config only while they are still falsy, and never touches any
HTML-derived field.  So values are protected from overwriting across the two
formats and within JSON parses, but not across repeated HTML parses. -/
theorem C4_fill_semantics (m : BasecallsMetadata) (lines : List HtmlLine)
    (c : Option JVal) :
    ((load_from_report_html m lines).1.basecalling_model = m.basecalling_model ∧
     (load_from_report_html m lines).1.basecalling_config = m.basecalling_config ∧
     (load_from_report_html m lines).1.json_data = m.json_data) ∧
    (truthyOpt m.basecalling_model = true →
      (load_from_report_json m c).1.basecalling_model = m.basecalling_model) ∧
    (truthyOpt m.basecalling_config = true →
      (load_from_report_json m c).1.basecalling_config = m.basecalling_config) ∧
    ((load_from_report_json m c).1.html_json_data = m.html_json_data ∧
     (load_from_report_json m c).1.flow_cell_id = m.flow_cell_id ∧
     (load_from_report_json m c).1.flow_cell_type = m.flow_cell_type ∧
     (load_from_report_json m c).1.kit = m.kit ∧
     (load_from_report_json m c).1.basecalling = m.basecalling ∧
     (load_from_report_json m c).1.modified_basecalling = m.modified_basecalling ∧
     (load_from_report_json m c).1.modifications = m.modifications ∧
     (load_from_report_json m c).1.trim_barcodes = m.trim_barcodes ∧
     (load_from_report_json m c).1.software_versions = m.software_versions) := by
  obtain ⟨hp, hm, hc⟩ := load_json_preserves m c
  exact ⟨load_html_preserves m lines, hm, hc, hp⟩

/-- A metadata record whose JSON-derived fields are already set. -/
def c4mW : BasecallsMetadata :=
  { basecalling_model := some (JVal.str "model1")
    basecalling_config := some (JVal.str "cfg1") }

/-- A JSON report that would supply a different model if the field were not
already set. -/
def c4cW : Option JVal :=
  some (JVal.obj [("acquisitions", JVal.arr [JVal.obj [("acquisition_run_info",
    JVal.obj [("config_summary", JVal.obj [("basecalling_model_version",
      JVal.str "other")])])]])])

/-- Witness for C4: the amended theorem applied to a record with both
JSON-derived fields set, an HTML report and a JSON report. -/
theorem C4_witness :
    (load_from_report_html c4mW c4linesA).1.basecalling_model = some (JVal.str "model1") ∧
    (load_from_report_json c4mW c4cW).1.basecalling_model = some (JVal.str "model1") ∧
    (load_from_report_json c4mW c4cW).1.flow_cell_id = none :=
  ⟨(C4_fill_semantics c4mW c4linesA c4cW).1.1,
   (C4_fill_semantics c4mW c4linesA c4cW).2.1 rfl,
   ((C4_fill_semantics c4mW c4linesA c4cW).2.2.2).2.1⟩

/-! ## C3: hard versus tolerant lookups in HTML report parsing -/

/-- A report document whose three sections are present but whose run_setup
carries none of the required keys. -/
def c3doc : JVal :=
  JVal.obj [("run_settings", JVal.arr []), ("run_setup", JVal.arr []),
    ("software_versions", JVal.arr [])]

/-- C3 counterexample: the embedded JSON is found and parses, yet
load_from_report_html raises (a KeyError from the hard lookup
run_setup["flow_cell_id"]) although the claim allows only the two structural
failures and promises missing keys never raise. -/
theorem C3_counterexample :
    (load_from_report_html {} [.reportDataJson (some c3doc)]).2 = some PyErr.key := rfl

/-- C3 (amended): HTML report parsing treats the three sections and the five
required keys as hard lookups.  A section absent from the parsed document
raises a KeyError (and a failing section extraction of any kind aborts the
parse with that error, keeping only the already-assigned html_json_data);
when the three sections extract, parsing succeeds exactly when the five
required keys flow_cell_id, flow_cell_type and kit_type (run_setup) and
basecalling and modified_basecalling (run_settings) are all present — a
missing required key raises a KeyError to the caller.  Only trim_barcodes
and the modification description are tolerant lookups: on success
trim_barcodes is whatever the tolerant lookup returned (unset when absent)
and the modifications field is unset whenever modified basecalling is not
"On". -/
theorem C3_html_lookup (m : BasecallsMetadata) (lines : List HtmlLine) (j : JVal)
    (hx : html_extract_json lines = .ok j) :
    (∀ fs name, j = JVal.obj fs → dictGet fs name = none →
      extract_section j name = .error PyErr.key) ∧
    (∀ e, extract_section j "run_settings" = .error e →
      load_from_report_html m lines = ({ m with html_json_data := some j }, some e)) ∧
    (∀ settings e, extract_section j "run_settings" = .ok settings →
      extract_section j "run_setup" = .error e →
      load_from_report_html m lines = ({ m with html_json_data := some j }, some e)) ∧
    (∀ settings setup e, extract_section j "run_settings" = .ok settings →
      extract_section j "run_setup" = .ok setup →
      extract_section j "software_versions" = .error e →
      load_from_report_html m lines = ({ m with html_json_data := some j }, some e)) ∧
    (∀ settings setup sw, extract_section j "run_settings" = .ok settings →
      extract_section j "run_setup" = .ok setup →
      extract_section j "software_versions" = .ok sw →
      (((load_from_report_html m lines).2 = none ↔
        ((dictGet setup "flow_cell_id").isSome = true ∧
         (dictGet setup "flow_cell_type").isSome = true ∧
         (dictGet setup "kit_type").isSome = true ∧
         (dictGet settings "basecalling").isSome = true ∧
         (dictGet settings "modified_basecalling").isSome = true)) ∧
       ((load_from_report_html m lines).2 = none →
        (load_from_report_html m lines).1.trim_barcodes = dictGet settings "trim_barcodes" ∧
        (∀ mb, dictGet settings "modified_basecalling" = some mb → isOn mb = false →
          (load_from_report_html m lines).1.modifications = none)))) := by
  refine ⟨?_, ?_, ?_, ?_, ?_⟩
  · rintro fs name rfl hget
    simp [extract_section, JVal.getItem, hget]
  · intro e he
    simp only [load_from_report_html, hx, he]
  · intro settings e hset he
    simp only [load_from_report_html, hx, hset, he]
  · intro settings setup e hset hsu he
    simp only [load_from_report_html, hx, hset, hsu, he]
  intro settings setup sw hset hsu hsw
  unfold load_from_report_html
  simp only [hx, hset, hsu, hsw]
  rcases h1 : dictGet setup "flow_cell_id" with _ | v1
  · simp [h1]
  rcases h2 : dictGet setup "flow_cell_type" with _ | v2
  · simp [h1, h2]
  rcases h3 : dictGet setup "kit_type" with _ | v3
  · simp [h1, h2, h3]
  rcases h4 : dictGet settings "basecalling" with _ | v4
  · simp [h1, h2, h3, h4]
  rcases h5 : dictGet settings "modified_basecalling" with _ | v5
  · simp [h1, h2, h3, h4, h5]
  refine ⟨by simp [h1, h2, h3, h4, h5], fun _ => ⟨by simp [h1, h2, h3, h4, h5], ?_⟩⟩
  intro mb hmb hoff
  injection hmb with hmb
  subst hmb
  simp [h1, h2, h3, h4, h5, hoff]

/-- A report document lacking the run_settings section entirely. -/
def c3doc2 : JVal :=
  JVal.obj [("run_setup", JVal.arr []), ("software_versions", JVal.arr [])]

/-- Witness for C3: the amended theorem applied to a complete concrete
report in which trim_barcodes and modifications are absent, and to a
concrete report whose run_settings section is missing, which raises a
KeyError while keeping only html_json_data. -/
theorem C3_witness :
    (load_from_report_html {} c4linesA).2 = none ∧
    (load_from_report_html {} c4linesA).1.trim_barcodes = none ∧
    (load_from_report_html {} c4linesA).1.modifications = none ∧
    extract_section c3doc2 "run_settings" = .error PyErr.key ∧
    load_from_report_html {} [.reportDataJson (some c3doc2)] =
      ({ html_json_data := some c3doc2 }, some PyErr.key) := by
  have h := C3_html_lookup {} c4linesA (htmlDocFC "PAW11111") rfl
  have h5 := h.2.2.2.2
    [("basecalling", JVal.str "High-accuracy model 400bps"),
     ("modified_basecalling", JVal.str "Off")]
    [("flow_cell_id", JVal.str "PAW11111"), ("flow_cell_type", JVal.str "FLO-PRO114M"),
     ("kit_type", JVal.str "SQK-PCB114-24")]
    [("minknow", JVal.str "25.03.7")] rfl rfl rfl
  have hz : (load_from_report_html {} c4linesA).2 = none :=
    h5.1.mpr ⟨rfl, rfl, rfl, rfl, rfl⟩
  have h2 := h5.2 hz
  have hmiss := C3_html_lookup {} [.reportDataJson (some c3doc2)] c3doc2 rfl
  exact ⟨hz, h2.1, h2.2 (JVal.str "Off") rfl rfl,
    hmiss.1 [("run_setup", JVal.arr []), ("software_versions", JVal.arr [])]
      "run_settings" rfl rfl,
    hmiss.2.1 PyErr.key rfl⟩

/-! ## C7: pool and run derivation for flow cells -/

/-- A project whose root directly contains a flow-cell directory. -/
def c7tree : FSTree :=
  .mk "proj" [.mk "20240513_0829_1A_PAW15419_465bb23f" [.mk "pod5" [] []] []] []

/-- C7 counterexample: for a flow cell directly under the project root the
computed run directory (the grandparent) is not the project root, yet run is
set to absent — the code also clears run when the project root equals the
parent (pool) directory, so "exactly when the run directory equals the
project root" is false. -/
theorem C7_counterexample :
    (scan [] c7tree).map (fun pm => pm.flow_cells.map FlowCellEnt.run) =
      Except.ok [none] ∧
    dirname (dirname ["proj", "20240513_0829_1A_PAW15419_465bb23f"]) ≠ ["proj"] :=
  ⟨rfl, by decide⟩

theorem FlowCell_init_ok {path pd : List String} {t : FSTree}
    {ent : FlowCellEnt} {ds : List String}
    (h : FlowCell.init path (some pd) t = .ok (ent, ds)) :
    ent.pool = basename (dirname path) ∧
    ent.run = (if pd = dirname path ∨ pd = dirname (dirname path) then none
               else some (basename (dirname (dirname path)))) ∧
    ent.path = path ∧ ent.name = basename path := by
  simp only [FlowCell.init] at h
  split at h
  · injection h with h
    injection h with he hd
    subst he
    exact ⟨rfl, rfl, rfl, rfl⟩
  · exact absurd h (by simp)

/-- C7 (amended): for every flow cell constructed with a project directory,
pool is the basename of the parent directory and run is the basename of the
grandparent, except that run is set to absent exactly when the project root
equals the parent directory or the grandparent directory; pool and run are
functions of the path alone and do not depend on the directory contents. -/
theorem C7_pool_run (path pd : List String) (t t' : FSTree)
    (ent ent' : FlowCellEnt) {ds ds' : List String}
    (h : FlowCell.init path (some pd) t = .ok (ent, ds))
    (h' : FlowCell.init path (some pd) t' = .ok (ent', ds')) :
    ent.pool = basename (dirname path) ∧
    (ent.run = none ↔ (pd = dirname path ∨ pd = dirname (dirname path))) ∧
    (¬(pd = dirname path ∨ pd = dirname (dirname path)) →
      ent.run = some (basename (dirname (dirname path)))) ∧
    ent'.pool = ent.pool ∧ ent'.run = ent.run := by
  obtain ⟨p1, p2, _, _⟩ := FlowCell_init_ok h
  obtain ⟨q1, q2, _, _⟩ := FlowCell_init_ok h'
  refine ⟨p1, ?_, ?_, q1.trans p1.symm, q2.trans p2.symm⟩
  · rw [p2]
    by_cases hc : pd = dirname path ∨ pd = dirname (dirname path) <;> simp [hc]
  · intro hc
    rw [p2, if_neg hc]

/-- The flow-cell node used in the C7 witness. -/
def c7node : FSTree := .mk "20240513_0829_1A_PAW15419_465bb23f" [.mk "pod5" [] []] []

/-- The entity built by FlowCell.init at a depth-3 path below the project. -/
def c7ent : FlowCellEnt :=
  match FlowCell.init ["p", "r", "pool", "20240513_0829_1A_PAW15419_465bb23f"]
      (some ["p"]) c7node with
  | .ok (ent, _) => ent
  | .error _ => default

/-- Witness for C7: the amended theorem applied at a concrete path. -/
theorem C7_witness : c7ent.pool = "pool" ∧ c7ent.run = some "r" := by
  have h := C7_pool_run ["p", "r", "pool", "20240513_0829_1A_PAW15419_465bb23f"]
    ["p"] c7node c7node c7ent c7ent rfl rfl
  exact ⟨h.1, h.2.2.1 (by decide)⟩

/-! ## C2: association of basecalls candidates with pools -/

theorem mem_insertByName {α : Type} (name : α → String) (x a : α) (l : List α) :
    a ∈ insertByName name x l ↔ a = x ∨ a ∈ l := by
  induction l with
  | nil => simp [insertByName]
  | cons y ys ih =>
    unfold insertByName
    split
    · simp only [List.mem_cons, ih]
      tauto
    · simp only [List.mem_cons]

theorem mem_sortByName {α : Type} (name : α → String) (a : α) (l : List α) :
    a ∈ sortByName name l ↔ a ∈ l := by
  induction l with
  | nil => simp [sortByName]
  | cons x xs ih => simp [sortByName, mem_insertByName, ih]

theorem mapM_ok_mem {α β : Type} (f : α → Except String β) {l : List α} {ys : List β}
    (h : l.mapM f = .ok ys) : ∀ y ∈ ys, ∃ x ∈ l, f x = .ok y := by
  induction l generalizing ys with
  | nil =>
    simp only [List.mapM_nil, pure, Except.pure] at h
    injection h with h
    subst h
    simp
  | cons x xs ih =>
    rw [List.mapM_cons] at h
    rcases hx : f x with e | y0 <;> rw [hx] at h <;>
      simp only [bind, Except.bind] at h
    · exact absurd h (by simp)
    rcases hxs : xs.mapM f with e | ys0 <;> rw [hxs] at h <;>
      simp only [pure, Except.pure] at h
    · exact absurd h (by simp)
    injection h with h
    subst h
    intro y hy
    rcases List.mem_cons.mp hy with rfl | hy
    · exact ⟨x, by simp, hx⟩
    · obtain ⟨x', hx', hfx'⟩ := ih hxs y hy
      exact ⟨x', by simp [hx'], hfx'⟩

theorem scan_ok {parent : List String} {root : FSTree} {pm : ProjectModel}
    (h : scan parent root = .ok pm) :
    ∃ fcs, (collectDirs (walkNode parent root)).1.mapM
        (fun pn => (FlowCell.init pn.1 (some (parent ++ [root.name])) pn.2).map Prod.fst)
        = .ok fcs ∧
      pm.flow_cells = sortByName FlowCellEnt.name fcs ∧
      pm.basecalls_dirs = sortByName BasecallsEnt.name
        ((collectDirs (walkNode parent root)).2.filterMap (fun pn =>
          (pm.flow_cells.find? (fun fc => pn.1.contains fc.pool)).map
            (fun fc => (BasecallsDir.init pn.1 (some fc.pool) fc.run pn.2).1))) ∧
      pm.path = parent ++ [root.name] ∧ pm.name = root.name := by
  simp only [scan] at h
  split at h
  · exact absurd h (by simp)
  next fcs heq =>
    injection h with h
    subst h
    exact ⟨fcs, heq, rfl, rfl, rfl, rfl⟩

/-- A project with one flow cell (pool poolA) and one basecalls candidate
under a path containing no pool name. -/
def c2tree : FSTree :=
  .mk "proj" [
    .mk "r" [.mk "poolA" [.mk "20240513_0829_1A_PAW15419_465bb23f"
      [.mk "pod5" [] []] []] []] [],
    .mk "other" [.mk "rebase" [.mk "pass" [] []] []] []] []

/-- C2 counterexample: the directory proj/other/rebase is classified as a
basecalls candidate (it has a child "pass"), no discovered pool name occurs
among its path components, and the resulting ProjectModel contains no
BasecallsDir entity at all — the candidate is dropped, not produced with
pool and run unset. -/
theorem C2_counterexample :
    (collectDirs (walkNode [] c2tree)).2.map Prod.fst = [["proj", "other", "rebase"]] ∧
    (scan [] c2tree).map (fun pm => pm.basecalls_dirs) = Except.ok [] ∧
    (scan [] c2tree).map (fun pm => pm.flow_cells.length) = Except.ok 1 :=
  ⟨rfl, rfl, rfl⟩

/-- C2 (amended): every BasecallsDir entity of a scan comes from a basecalls
candidate whose path contains the pool name of some flow cell, and takes
pool and run from the first such flow cell in the name-sorted flow-cell
list; a basecalls candidate none of whose path components is a discovered
pool name yields no entity at all (it is dropped, without raising). -/
theorem C2_basecalls_association (parent : List String) (root : FSTree)
    (pm : ProjectModel) (hs : scan parent root = .ok pm) :
    (∀ bc ∈ pm.basecalls_dirs, ∃ pn ∈ (collectDirs (walkNode parent root)).2,
      bc.path = pn.1 ∧
      ∃ fc, pm.flow_cells.find? (fun fc => pn.1.contains fc.pool) = some fc ∧
        bc.pool = some fc.pool ∧ bc.run = fc.run) ∧
    (∀ pn ∈ (collectDirs (walkNode parent root)).2,
      (∀ fc ∈ pm.flow_cells, pn.1.contains fc.pool = false) →
      ∀ bc ∈ pm.basecalls_dirs, bc.path ≠ pn.1) := by
  obtain ⟨fcs, hmap, hfc, hbc, _, _⟩ := scan_ok hs
  constructor
  · intro bc hbc'
    rw [hbc, mem_sortByName, List.mem_filterMap] at hbc'
    obtain ⟨pn, hpn, hsome⟩ := hbc'
    rcases hfind : pm.flow_cells.find? (fun fc => pn.1.contains fc.pool) with _ | fc <;>
      rw [hfind] at hsome
    · exact absurd hsome (by simp [Option.map_none'])
    · rw [Option.map_some'] at hsome
      injection hsome with hsome
      subst hsome
      exact ⟨pn, hpn, rfl, fc, hfind, rfl, rfl⟩
  · intro pn hpn hnone bc hbc' hpath
    rw [hbc, mem_sortByName, List.mem_filterMap] at hbc'
    obtain ⟨pn', hpn', hsome⟩ := hbc'
    rcases hfind : pm.flow_cells.find? (fun fc => pn'.1.contains fc.pool) with _ | fc <;>
      rw [hfind] at hsome
    · exact absurd hsome (by simp [Option.map_none'])
    · rw [Option.map_some'] at hsome
      injection hsome with hsome
      subst hsome
      have hp          : pn'.1 = pn.1 := hpath
      have hmem := List.mem_of_find?_eq_some hfind
      have htrue := List.find?_some hfind
      rw [hp] at htrue
      rw [hnone fc hmem] at htrue
      exact absurd htrue (by simp)

/-- A project with one flow cell (pool PG1) and one basecalls candidate
whose path contains PG1. -/
def c2wTree : FSTree :=
  .mk "proj" [
    .mk "R1" [
      .mk "PG1" [.mk "20240513_0829_1A_PAW15419_465bb23f" [.mk "pod5" [] []] []] [],
      .mk "Rebasecalling" [.mk "PG1" [.mk "pass" [] []] []] []] []] []

/-- The model produced by scanning c2wTree. -/
def c2wPM : ProjectModel :=
  match scan [] c2wTree with
  | .ok pm => pm
  | .error _ => default

/-- The single basecalls entity of that scan. -/
def c2wBC : BasecallsEnt := c2wPM.basecalls_dirs.headI

/-- Witness for C2: the amended theorem applied to a concrete scan, with a
concrete basecalls entity whose association is exhibited. -/
theorem C2_witness :
    ∃ pn ∈ (collectDirs (walkNode [] c2wTree)).2, c2wBC.path = pn.1 ∧
      ∃ fc, c2wPM.flow_cells.find? (fun fc => pn.1.contains fc.pool) = some fc ∧
        c2wBC.pool = some fc.pool ∧ c2wBC.run = fc.run :=
  (C2_basecalls_association [] c2wTree c2wPM rfl).1 c2wBC
    (by rw [show c2wPM.basecalls_dirs = [c2wBC] from rfl]; exact List.mem_cons_self _ _)

/-! ## Structure of the walk: entry paths and well-formed trees -/

/-- Pairwise distinct strings, checked executably. -/
def distinctB : List String → Bool
  | [] => true
  | x :: xs => !xs.contains x && distinctB xs

mutual

/-- Well-formed directory tree: sibling directory names are distinct at
every level, as on a real filesystem. -/
def FSTree.wfB : FSTree → Bool
  | .mk _ subs _ => distinctB (subs.map FSTree.name) && wfListB subs
termination_by structural t => t

def wfListB : List FSTree → Bool
  | [] => true
  | c :: cs => FSTree.wfB c && wfListB cs
termination_by structural l => l

end

theorem distinctB_cons {x : String} {xs : List String}
    (h : distinctB (x :: xs) = true) : x ∉ xs ∧ distinctB xs = true := by
  unfold distinctB at h
  rw [Bool.and_eq_true, Bool.not_eq_true'] at h
  exact ⟨by simpa using h.1, h.2⟩

mutual

theorem walkNode_shape (pp : List String) (t : FSTree) :
    ∀ pn ∈ walkNode pp t, ∃ r, pn.1 = pp ++ t.name :: r := by
  rcases t with ⟨n, subs, fs⟩
  intro pn hpn
  rw [walkNode] at hpn
  rcases List.mem_cons.mp hpn with rfl | hpn'
  · exact ⟨[], by simp [FSTree.name]⟩
  · obtain ⟨c, _, r, hr⟩ := walkList_shape (pp ++ [n]) subs pn hpn'
    exact ⟨c.name :: r, by simp [FSTree.name, hr]⟩
termination_by structural t

theorem walkList_shape (pp : List String) (cs : List FSTree) :
    ∀ pn ∈ walkList pp cs, ∃ c ∈ cs, ∃ r, pn.1 = pp ++ c.name :: r := by
  match cs with
  | [] => intro pn hpn; rw [walkList] at hpn; exact absurd hpn (by simp)
  | c :: cs' =>
    intro pn hpn
    rw [walkList] at hpn
    rcases List.mem_append.mp hpn with h | h
    · obtain ⟨r, hr⟩ := walkNode_shape pp c pn h
      exact ⟨c, by simp, r, hr⟩
    · obtain ⟨c', hc', r, hr⟩ := walkList_shape pp cs' pn h
      exact ⟨c', by simp [hc'], r, hr⟩
termination_by structural cs

end

mutual

theorem walkNode_paths_nodup (pp : List String) (t : FSTree) (hwf : t.wfB = true) :
    ((walkNode pp t).map Prod.fst).Nodup := by
  rcases t with ⟨n, subs, fs⟩
  rw [FSTree.wfB, Bool.and_eq_true] at hwf
  rw [walkNode, List.map_cons]
  refine List.nodup_cons.mpr ⟨?_, walkList_paths_nodup (pp ++ [n]) subs hwf.1 hwf.2⟩
  intro hmem
  obtain ⟨pn, hpn, hfst⟩ := List.mem_map.mp hmem
  obtain ⟨c, _, r, hr⟩ := walkList_shape (pp ++ [n]) subs pn hpn
  rw [hfst] at hr
  have hlen := congrArg List.length hr
  simp [FSTree.name] at hlen
termination_by structural t

theorem walkList_paths_nodup (pp : List String) (cs : List FSTree)
    (hd : distinctB (cs.map FSTree.name) = true) (hwf : wfListB cs = true) :
    ((walkList pp cs).map Prod.fst).Nodup := by
  match cs with
  | [] => rw [walkList]; simp
  | c :: cs' =>
    rw [walkList, List.map_append]
    rw [List.map_cons] at hd
    obtain ⟨hd1, hd2⟩ := distinctB_cons hd
    rw [wfListB, Bool.and_eq_true] at hwf
    refine List.Nodup.append (walkNode_paths_nodup pp c hwf.1)
      (walkList_paths_nodup pp cs' hd2 hwf.2) ?_
    intro q hq1 hq2
    obtain ⟨pn, hpn, hq⟩ := List.mem_map.mp hq1
    obtain ⟨pn', hpn', hq'⟩ := List.mem_map.mp hq2
    obtain ⟨r, hr⟩ := walkNode_shape pp c pn hpn
    obtain ⟨c', hc', r', hr'⟩ := walkList_shape pp cs' pn' hpn'
    rw [hq] at hr
    rw [hq'] at hr'
    rw [hr] at hr'
    have hnm : c.name = c'.name := by
      have := List.append_cancel_left hr'
      injection this
    exact hd1 (hnm ▸ List.mem_map.mpr ⟨c', hc', rfl⟩)
termination_by structural cs

end

/-- In a list of path/node pairs with distinct paths, the path determines
the node. -/
theorem walk_entry_unique {w : List (List String × FSTree)}
    (hnd : (w.map Prod.fst).Nodup) {p : List String} {n n' : FSTree}
    (h1 : (p, n) ∈ w) (h2 : (p, n') ∈ w) : n = n' := by
  induction w with
  | nil => exact absurd h1 (by simp)
  | cons e w ih =>
    rw [List.map_cons] at hnd
    obtain ⟨hne, hnd'⟩ := List.nodup_cons.mp hnd
    rcases List.mem_cons.mp h1 with h1e | h1'
    · rcases List.mem_cons.mp h2 with h2e | h2'
      · have hpn := h1e.trans h2e.symm
        injection hpn with hfst hsnd
        try exact hsnd
      · exfalso
        apply hne
        have hp : p ∈ w.map Prod.fst := List.mem_map.mpr ⟨(p, n'), h2', rfl⟩
        rw [← h1e]
        exact hp
    · rcases List.mem_cons.mp h2 with h2e | h2'
      · exfalso
        apply hne
        have hp : p ∈ w.map Prod.fst := List.mem_map.mpr ⟨(p, n), h1', rfl⟩
        rw [← h2e]
        exact hp
      · exact ih hnd' h1' h2'

/-! ## Per-directory classification facts -/

theorem classifyChildren_cons (d : String) (ds : List String) :
    classifyChildren (d :: ds) =
      match childRule d with
      | some t => some t
      | none => classifyChildren ds := by
  by_cases h1 : d = "pass"
  · simp [classifyChildren, childRule, h1]
  by_cases h2 : d = "pod5" || strEndsWith d "_pass"
  · simp [classifyChildren, childRule, h1, h2]
  · simp [classifyChildren, childRule, h1, h2]

theorem classifyChildren_first_match (ds : List String) (tag : DirTag) :
    classifyChildren ds = some tag ↔
      ∃ l d r, ds = l ++ d :: r ∧ (∀ x ∈ l, childRule x = none) ∧
        childRule d = some tag := by
  induction ds with
  | nil =>
    simp only [classifyChildren]
    constructor
    · intro h; exact absurd h (by simp)
    · rintro ⟨l, d, r, h, -, -⟩
      exact absurd h (by simp)
  | cons d ds ih =>
    rw [classifyChildren_cons]
    rcases hcr : childRule d with _ | t
    · simp only []
      rw [ih]
      constructor
      · rintro ⟨l, d', r, hds, hl, hd'⟩
        exact ⟨d :: l, d', r, by simp [hds], by
          intro x hx
          rcases List.mem_cons.mp hx with rfl | hx
          · exact hcr
          · exact hl x hx, hd'⟩
      · rintro ⟨l, d', r, hds, hl, hd'⟩
        rcases l with _ | ⟨l0, l'⟩
        · simp at hds
          obtain ⟨rfl, -⟩ := hds
          rw [hcr] at hd'
          exact absurd hd' (by simp)
        · rw [List.cons_append] at hds
          injection hds with h0 hds'
          subst h0
          exact ⟨l', d', r, hds', fun x hx => hl x (by simp [hx]), hd'⟩
    · simp only []
      constructor
      · intro h
        injection h with h
        subst h
        exact ⟨[], d, ds, by simp, by simp, hcr⟩
      · rintro ⟨l, d', r, hds, hl, hd'⟩
        rcases l with _ | ⟨l0, l'⟩
        · simp at hds
          obtain ⟨rfl, -⟩ := hds
          rw [hcr] at hd'
          exact hd'
        · rw [List.cons_append] at hds
          injection hds with h0 hds'
          subst h0
          rw [hl d (by simp)] at hcr
          exact absurd hcr (by simp)

theorem collectDirs_fst_mem (w : List (List String × FSTree))
    (pn : List String × FSTree) :
    pn ∈ (collectDirs w).1 ↔
      pn ∈ w ∧ classifyChildren (pn.2.subdirs.map FSTree.name) = some .flowcell := by
  induction w with
  | nil => simp [collectDirs]
  | cons e w ih =>
    rcases e with ⟨p, n⟩
    rw [collectDirs]
    rcases hcl : classifyChildren (n.subdirs.map FSTree.name) with _ | tag
    · simp only [hcl]
      rw [ih]
      constructor
      · rintro ⟨hm, hc⟩
        exact ⟨List.mem_cons_of_mem _ hm, hc⟩
      · rintro ⟨hm, hc⟩
        rcases List.mem_cons.mp hm with rfl | hm'
        · rw [hcl] at hc; exact absurd hc (by simp)
        · exact ⟨hm', hc⟩
    · rcases tag with _ | _
      · -- flowcell: candidate added to the first list
        simp only [hcl]
        rw [List.mem_cons, ih]
        constructor
        · rintro (rfl | ⟨hm, hc⟩)
          · exact ⟨by simp, hcl⟩
          · exact ⟨List.mem_cons_of_mem _ hm, hc⟩
        · rintro ⟨hm, hc⟩
          rcases List.mem_cons.mp hm with rfl | hm'
          · exact Or.inl rfl
          · exact Or.inr ⟨hm', hc⟩
      · -- basecalls: first list unchanged
        simp only [hcl]
        rw [ih]
        constructor
        · rintro ⟨hm, hc⟩
          exact ⟨List.mem_cons_of_mem _ hm, hc⟩
        · rintro ⟨hm, hc⟩
          rcases List.mem_cons.mp hm with rfl | hm'
          · rw [hcl] at hc; exact absurd hc (by simp)
          · exact ⟨hm', hc⟩

theorem collectDirs_snd_mem (w : List (List String × FSTree))
    (pn : List String × FSTree) :
    pn ∈ (collectDirs w).2 ↔
      pn ∈ w ∧ classifyChildren (pn.2.subdirs.map FSTree.name) = some .basecalls := by
  induction w with
  | nil => simp [collectDirs]
  | cons e w ih =>
    rcases e with ⟨p, n⟩
    rw [collectDirs]
    rcases hcl : classifyChildren (n.subdirs.map FSTree.name) with _ | tag
    · simp only [hcl]
      rw [ih]
      constructor
      · rintro ⟨hm, hc⟩
        exact ⟨List.mem_cons_of_mem _ hm, hc⟩
      · rintro ⟨hm, hc⟩
        rcases List.mem_cons.mp hm with rfl | hm'
        · rw [hcl] at hc; exact absurd hc (by simp)
        · exact ⟨hm', hc⟩
    · rcases tag with _ | _
      · simp only [hcl]
        rw [ih]
        constructor
        · rintro ⟨hm, hc⟩
          exact ⟨List.mem_cons_of_mem _ hm, hc⟩
        · rintro ⟨hm, hc⟩
          rcases List.mem_cons.mp hm with rfl | hm'
          · rw [hcl] at hc; exact absurd hc (by simp)
          · exact ⟨hm', hc⟩
      · simp only [hcl]
        rw [List.mem_cons, ih]
        constructor
        · rintro (rfl | ⟨hm, hc⟩)
          · exact ⟨by simp, hcl⟩
          · exact ⟨List.mem_cons_of_mem _ hm, hc⟩
        · rintro ⟨hm, hc⟩
          rcases List.mem_cons.mp hm with rfl | hm'
          · exact Or.inl rfl
          · exact Or.inr ⟨hm', hc⟩

/-! ## C6: which child decides a directory's classification -/

/-- A directory whose children in listing order are bam_pass then pass. -/
def c6tree : FSTree :=
  .mk "proj" [.mk "X" [.mk "bam_pass" [] [], .mk "pass" [] []] []] []

/-- A basecalls candidate with a flow-cell candidate nested beneath it. -/
def c6tree2 : FSTree :=
  .mk "proj" [.mk "D" [.mk "pass" [] [], .mk "sub" [.mk "pod5" [] []] []] []] []

/-- C6 counterexample: directory X has an immediate child literally named
"pass" yet is classified as a flow-cell candidate, because its child
bam_pass comes first in listing order and the loop stops at the first
matching child, not at the "pass" rule; and marking D as a basecalls
candidate does not stop matches in its subtree — D/sub is still classified. -/
theorem C6_counterexample :
    (collectDirs (walkNode [] c6tree)).1.map Prod.fst = [["proj", "X"]] ∧
    (collectDirs (walkNode [] c6tree)).2.map Prod.fst = [] ∧
    (collectDirs (walkNode [] c6tree2)).2.map Prod.fst = [["proj", "D"]] ∧
    (collectDirs (walkNode [] c6tree2)).1.map Prod.fst = [["proj", "D", "sub"]] :=
  ⟨rfl, rfl, rfl, rfl⟩

/-- C6 (amended): a directory's classification is decided by the first child
in listing order that matches either rule (for a single child the "pass"
test precedes the pod5/_pass test, but across children listing order wins);
every visited directory is classified independently — the walk descends
into candidates' subtrees and classifies them too; and a directory none of
whose children matches contributes no candidate under either tag. -/
theorem C6_classification (parent : List String) (root : FSTree) :
    (∀ ds : List String, ∀ tag : DirTag,
      classifyChildren ds = some tag ↔
        ∃ l d r, ds = l ++ d :: r ∧ (∀ x ∈ l, childRule x = none) ∧
          childRule d = some tag) ∧
    (∀ pn : List String × FSTree,
      (pn ∈ (collectDirs (walkNode parent root)).1 ↔
        pn ∈ walkNode parent root ∧
          classifyChildren (pn.2.subdirs.map FSTree.name) = some .flowcell) ∧
      (pn ∈ (collectDirs (walkNode parent root)).2 ↔
        pn ∈ walkNode parent root ∧
          classifyChildren (pn.2.subdirs.map FSTree.name) = some .basecalls)) ∧
    (root.wfB = true → ∀ pn ∈ walkNode parent root,
      classifyChildren (pn.2.subdirs.map FSTree.name) = none →
      ∀ qn : List String × FSTree,
        (qn ∈ (collectDirs (walkNode parent root)).1 ∨
         qn ∈ (collectDirs (walkNode parent root)).2) → qn.1 ≠ pn.1) := by
  refine ⟨fun ds tag => classifyChildren_first_match ds tag,
    fun pn => ⟨collectDirs_fst_mem _ pn, collectDirs_snd_mem _ pn⟩, ?_⟩
  intro hwf pn hpn hcl qn hq hqp
  have hnd := walkNode_paths_nodup parent root hwf
  rcases pn with ⟨p, n⟩
  rcases qn with ⟨q, n'⟩
  dsimp only at hcl hqp
  have hq1 : (q, n') ∈ walkNode parent root ∧
      (classifyChildren (n'.subdirs.map FSTree.name)).isSome = true := by
    rcases hq with h | h
    · have hm := (collectDirs_fst_mem _ _).mp h
      exact ⟨hm.1, by rw [hm.2]; rfl⟩
    · have hm := (collectDirs_snd_mem _ _).mp h
      exact ⟨hm.1, by rw [hm.2]; rfl⟩
  subst hqp
  have hnn : n' = n := walk_entry_unique hnd hq1.1 hpn
  rw [hnn, hcl] at hq1
  exact absurd hq1.2 (by simp)

/-- The unclassified directory entry proj/r of c2tree. -/
def c6pn : List String × FSTree :=
  (["proj", "r"], .mk "r" [.mk "poolA" [.mk "20240513_0829_1A_PAW15419_465bb23f"
    [.mk "pod5" [] []] []] []] [])

/-- The flow-cell candidate entry of c2tree. -/
def c6qn : List String × FSTree :=
  (["proj", "r", "poolA", "20240513_0829_1A_PAW15419_465bb23f"],
   .mk "20240513_0829_1A_PAW15419_465bb23f" [.mk "pod5" [] []] [])

/-- Witness for C6: the amended theorem applied to concrete child lists and
to a concrete scan with an unclassified directory. -/
theorem C6_witness :
    classifyChildren ["bam_pass", "other", "pod5"] = some DirTag.flowcell ∧
    c6qn.1 ≠ c6pn.1 := by
  have h := C6_classification [] c2tree
  refine ⟨(h.1 ["bam_pass", "other", "pod5"] DirTag.flowcell).mpr
    ⟨[], "bam_pass", ["other", "pod5"], rfl, by simp, rfl⟩, ?_⟩
  exact h.2.2 rfl c6pn (List.mem_cons_of_mem _ (List.mem_cons_self _ _)) rfl c6qn
    (Or.inl (List.mem_cons_self _ _))

/-! ## C10: flow-cell and basecalls classifications are disjoint -/

/-- C10 (confirmed): in one scan of a well-formed tree (distinct sibling
directory names, as on a real filesystem) no directory path appears both as
a FlowCell entity and as a BasecallsDir entity: the per-directory child loop
assigns at most one classification to each visited directory. -/
theorem C10_disjoint_entities (parent : List String) (root : FSTree)
    (pm : ProjectModel) (hwf : root.wfB = true) (hs : scan parent root = .ok pm) :
    pm.flow_cells.all
      (fun fc => !(pm.basecalls_dirs.any (fun bc => bc.path == fc.path))) = true := by
  simp only [List.all_eq_true, Bool.not_eq_true', List.any_eq_false, beq_iff_eq]
  intro fc hfc bc hbc hpath
  obtain ⟨fcs, hmap, hfcs, hbcs, _, _⟩ := scan_ok hs
  rw [hfcs, mem_sortByName] at hfc
  obtain ⟨pn, hpn, hinit⟩ := mapM_ok_mem _ hmap fc hfc
  rcases hini : FlowCell.init pn.1 (some (parent ++ [root.name])) pn.2 with e | ed
  · rw [hini] at hinit
    exact absurd hinit (by simp [Except.map])
  rcases ed with ⟨ent, ds⟩
  rw [hini] at hinit
  simp only [Except.map] at hinit
  injection hinit with hfceq
  have hfp : fc.path = pn.1 := by
    rw [← hfceq]
    exact (FlowCell_init_ok hini).2.2.1
  rw [hbcs, mem_sortByName, List.mem_filterMap] at hbc
  obtain ⟨pn', hpn', hsome⟩ := hbc
  rcases hfind : pm.flow_cells.find? (fun fc => pn'.1.contains fc.pool) with _ | fcm <;>
    rw [hfind] at hsome
  · exact absurd hsome (by simp [Option.map_none'])
  rw [Option.map_some'] at hsome
  injection hsome with hsome
  have hbp : bc.path = pn'.1 := by rw [← hsome]; rfl
  have h1 := (collectDirs_fst_mem _ pn).mp hpn
  have h2 := (collectDirs_snd_mem _ pn').mp hpn'
  have hnd := walkNode_paths_nodup parent root hwf
  rcases pn with ⟨p1, n1⟩
  rcases pn' with ⟨p2, n2⟩
  dsimp only at hfp hbp h1 h2
  have hpp : p2 = p1 := by rw [← hfp, ← hbp, hpath]
  subst hpp
  have hnn : n2 = n1 := walk_entry_unique hnd h2.1 h1.1
  rw [hnn] at h2
  rw [h1.2] at h2
  exact absurd h2.2 (by simp)

/-- Witness for C10: the theorem applied to a concrete scan that produced
one flow cell and one basecalls directory. -/
theorem C10_witness :
    c2wPM.flow_cells.all
      (fun fc => !(c2wPM.basecalls_dirs.any (fun bc => bc.path == fc.path))) = true :=
  C10_disjoint_entities [] c2wTree c2wPM rfl rfl

/-! ## C8: per-report failures are recorded, never abort the scan -/

/-- A report whose three sections extract but whose run_setup carries only
the flow-cell id, so parsing fails after flow_cell_id is assigned. -/
def c8doc : JVal :=
  JVal.obj [
    ("run_settings", JVal.arr []),
    ("run_setup", JVal.arr [JVal.obj [("title", JVal.str "Flow cell ID"),
      ("value", JVal.str "PXX99999")]]),
    ("software_versions", JVal.arr [])]

def c8node : FSTree :=
  .mk "BC" [.mk "pass" [] []]
    [("report_a.html", .html [.reportDataJson (some c8doc)])]

/-- C8 counterexample: the failing report is recorded as a diagnostic and the
entity is still constructed, but the metadata fields the failed report would
have supplied are not all left unset — flow_cell_id was assigned before the
failing lookup and the partial assignment survives the caught exception. -/
theorem C8_counterexample :
    (BasecallsDir.init ["BC"] none none c8node).2 = ["report_a.html"] ∧
    (BasecallsDir.init ["BC"] none none c8node).1.metadata.flow_cell_id =
      some (JVal.str "PXX99999") ∧
    (BasecallsDir.init ["BC"] none none c8node).1.metadata.flow_cell_type = none :=
  ⟨rfl, rfl, rfl⟩

theorem scanEntryStep_diag_mono (t : FSTree) (acc : ReportScan) (f : String) :
    ∃ d, (scanEntryStep t acc f).diagnostics = acc.diagnostics ++ d := by
  unfold scanEntryStep
  split
  · split
    · rcases hrf : t.readFile f with e | c
      · exact ⟨[f], by simp [hrf]⟩
      · rcases hl : load_from_report acc.metadata f c with ⟨m2, err⟩
        rcases err with _ | e
        · exact ⟨[], by simp [hrf, hl]⟩
        · exact ⟨[f], by simp [hrf, hl]⟩
    · exact ⟨[], by simp⟩
  · split
    · exact ⟨[], by simp⟩
    · exact ⟨[], by simp⟩

theorem foldl_diag_mono (t : FSTree) (l : List String) :
    ∀ acc : ReportScan, ∃ d,
      (l.foldl (scanEntryStep t) acc).diagnostics = acc.diagnostics ++ d := by
  induction l with
  | nil => exact fun acc => ⟨[], by simp [List.foldl]⟩
  | cons x l ih =>
    intro acc
    obtain ⟨d1, hd1⟩ := scanEntryStep_diag_mono t acc x
    obtain ⟨d2, hd2⟩ := ih (scanEntryStep t acc x)
    exact ⟨d1 ++ d2, by rw [List.foldl_cons, hd2, hd1, List.append_assoc]⟩

theorem scanEntryStep_fail (t : FSTree) (acc : ReportScan) (f : String)
    (hrep : strStartsWith f "report_" = true)
    (hext : (strEndsWith f ".html" || strEndsWith f ".json") = true)
    (hfail : ∀ c, t.readFile f = .ok c → (load_from_report acc.metadata f c).2 ≠ none) :
    f ∈ (scanEntryStep t acc f).diagnostics := by
  unfold scanEntryStep
  simp only [hrep, hext, if_true]
  rcases hrf : t.readFile f with e | c
  · simp
  · rcases hl : load_from_report acc.metadata f c with ⟨m, err⟩
    rcases err with _ | e
    · exact absurd (by rw [hl]) (hfail c hrf)
    · simp [hl]

theorem scanReports_records (t : FSTree) (f : String)
    (hf : f ∈ t.listdir) (hrep : strStartsWith f "report_" = true)
    (hext : (strEndsWith f ".html" || strEndsWith f ".json") = true)
    (hfail : ∀ m : BasecallsMetadata, ∀ c, t.readFile f = .ok c →
      (load_from_report m f c).2 ≠ none) :
    f ∈ (scanReports t).diagnostics := by
  unfold scanReports
  have aux : ∀ l : List String, ∀ acc : ReportScan, f ∈ l →
      f ∈ (l.foldl (scanEntryStep t) acc).diagnostics := by
    intro l
    induction l with
    | nil => intro acc h; exact absurd h (by simp)
    | cons x l ih =>
      intro acc hm
      rcases List.mem_cons.mp hm with rfl | hm'
      · rw [List.foldl_cons]
        have hstep := scanEntryStep_fail t acc f hrep hext (hfail acc.metadata)
        obtain ⟨d, hd⟩ := foldl_diag_mono t l (scanEntryStep t acc f)
        rw [hd]
        exact List.mem_append_left _ hstep
      · rw [List.foldl_cons]
        exact ih (scanEntryStep t acc x) hm'
  exact aux t.listdir _ hf

theorem load_html_structural {lines : List HtmlLine} {e : PyErr}
    (m : BasecallsMetadata) (h : html_extract_json lines = .error e) :
    load_from_report_html m lines = (m, some e) := by
  unfold load_from_report_html
  rw [h]

theorem FlowCell_init_total (path : List String) (pd : Option (List String))
    (t : FSTree) (hn : is_flow_cell_name (basename path) = true) :
    ∃ ent ds, FlowCell.init path pd t = .ok (ent, ds) := by
  rcases hini : FlowCell.init path pd t with e | ed
  · simp only [FlowCell.init, hn, if_true] at hini
    exact Except.noConfusion hini
  · exact ⟨ed.1, ed.2, rfl⟩

/-- C8 (amended): a report whose parsing raises is caught by the walker:
the scan is not aborted — the owning entity is constructed whenever the
directory name check passes (BasecallsDir construction is total) — the
report's name is recorded as a diagnostic, and a structural failure (no
marker line or unparsable JSON) leaves the metadata exactly as it was
before that report; a failure that occurs mid-extraction, however, keeps the
fields assigned before the failing access. -/
theorem C8_report_failure (t : FSTree) (path : List String)
    (pool run : Option String) (pd : Option (List String))
    (f : String) (m : BasecallsMetadata) (lines : List HtmlLine) (e : PyErr) :
    (is_flow_cell_name (basename path) = true →
      ∃ ent ds, FlowCell.init path pd t = .ok (ent, ds)) ∧
    ((BasecallsDir.init path pool run t).1.metadata = (scanReports t).metadata ∧
     (BasecallsDir.init path pool run t).2 = (scanReports t).diagnostics) ∧
    (html_extract_json lines = .error e →
      load_from_report_html m lines = (m, some e)) ∧
    (load_from_report_json m none = (m, some PyErr.value)) ∧
    (f ∈ t.listdir → strStartsWith f "report_" = true →
      (strEndsWith f ".html" || strEndsWith f ".json") = true →
      (∀ m' : BasecallsMetadata, ∀ c, t.readFile f = .ok c →
        (load_from_report m' f c).2 ≠ none) →
      f ∈ (scanReports t).diagnostics) := by
  exact ⟨fun hn => FlowCell_init_total path pd t hn, ⟨rfl, rfl⟩,
    fun hx => load_html_structural m hx, rfl,
    fun hf hrep hext hfail => scanReports_records t f hf hrep hext hfail⟩

/-- A directory with a malformed HTML report (no marker line). -/
def c8wNode : FSTree :=
  .mk "20240513_0829_1A_PAW15419_465bb23f" [.mk "pod5" [] []]
    [("report_bad.html", .html [.other])]

/-- Witness for C8: the amended theorem applied to a concrete directory
holding a marker-less HTML report. -/
theorem C8_witness :
    (∃ ent ds, FlowCell.init ["p", "20240513_0829_1A_PAW15419_465bb23f"]
      none c8wNode = .ok (ent, ds)) ∧
    "report_bad.html" ∈ (scanReports c8wNode).diagnostics := by
  have h := C8_report_failure c8wNode ["p", "20240513_0829_1A_PAW15419_465bb23f"]
    none none none "report_bad.html" {} [.other] PyErr.value
  refine ⟨h.1 rfl, h.2.2.2.2 ?_ rfl rfl ?_⟩
  · exact List.mem_cons_of_mem _ (List.mem_cons_self _ _)
  · intro m' c hc hnone
    injection hc with hc
    subst hc
    exact Option.noConfusion hnone

/-! ## C9: merging an HTML and a JSON report is order-independent -/

/-- The record produced by a successful HTML parse: every HTML-derived field
is overwritten with a value computed from the document alone. -/
def htmlApply (m : BasecallsMetadata) (j : JVal) (settings sw : List (String × JVal))
    (fcid fct kt bcv mb : JVal) : BasecallsMetadata :=
  { m with
    html_json_data := some j
    flow_cell_id := some fcid
    flow_cell_type := some fct
    kit := some kt
    basecalling := some bcv
    modified_basecalling := some mb
    modifications :=
      if isOn mb then
        if truthyOpt (dictGet settings "modifications") then dictGet settings "modifications"
        else dictGet settings "modified_base_context"
      else none
    trim_barcodes := dictGet settings "trim_barcodes"
    software_versions := some sw }

theorem load_html_eval (m : BasecallsMetadata) (lines : List HtmlLine) (j : JVal)
    (settings setup sw : List (String × JVal)) (fcid fct kt bcv mb : JVal)
    (hx : html_extract_json lines = .ok j)
    (hset : extract_section j "run_settings" = .ok settings)
    (hsu : extract_section j "run_setup" = .ok setup)
    (hsw : extract_section j "software_versions" = .ok sw)
    (h1 : dictGet setup "flow_cell_id" = some fcid)
    (h2 : dictGet setup "flow_cell_type" = some fct)
    (h3 : dictGet setup "kit_type" = some kt)
    (h4 : dictGet settings "basecalling" = some bcv)
    (h5 : dictGet settings "modified_basecalling" = some mb) :
    load_from_report_html m lines =
      (htmlApply m j settings sw fcid fct kt bcv mb, none) := by
  unfold load_from_report_html htmlApply
  simp only [hx, hset, hsu, hsw, h1, h2, h3, h4, h5]

/-- The model-field step of the acquisition loop on the field value alone. -/
def specModelStep (mo : Option JVal) (a : JVal) : Except PyErr (Option JVal) :=
  if truthyOpt mo then .ok mo
  else
    match configChain a "basecalling_model_version" with
    | .ok v => .ok (some v)
    | .error .key => .ok mo
    | .error e => .error e

/-- The config-field step of the acquisition loop on the field value alone. -/
def specConfigStep (co : Option JVal) (a : JVal) : Except PyErr (Option JVal) :=
  if truthyOpt co then .ok co
  else
    match configChain a "basecalling_config_filename" with
    | .ok v => .ok (some v)
    | .error .key => .ok co
    | .error e => .error e

/-- The acquisition loop expressed on the two field values alone: final
model value, final config value, and the exception aborting the loop. -/
def loopSpec : List JVal → Option JVal → Option JVal →
    Option JVal × Option JVal × Option PyErr
  | [], mo, co => (mo, co, none)
  | a :: rest, mo, co =>
    match specModelStep mo a with
    | .error e => (mo, co, some e)
    | .ok mo1 =>
      match specConfigStep co a with
      | .error e => (mo1, co, some e)
      | .ok co1 => loopSpec rest mo1 co1

theorem fillModelStep_spec (m : BasecallsMetadata) (a : JVal) :
    fillModelStep m a = (specModelStep m.basecalling_model a).map
      (fun mo => { m with basecalling_model := mo }) := by
  unfold fillModelStep specModelStep
  split
  · simp [Except.map]
  · split <;> simp [Except.map]

theorem fillConfigStep_spec (m : BasecallsMetadata) (a : JVal) :
    fillConfigStep m a = (specConfigStep m.basecalling_config a).map
      (fun co => { m with basecalling_config := co }) := by
  unfold fillConfigStep specConfigStep
  split
  · simp [Except.map]
  · split <;> simp [Except.map]

theorem jsonAcqLoop_spec (l : List JVal) : ∀ m : BasecallsMetadata,
    jsonAcqLoop m l =
      ({ m with
          basecalling_model := (loopSpec l m.basecalling_model m.basecalling_config).1
          basecalling_config := (loopSpec l m.basecalling_model m.basecalling_config).2.1 },
        (loopSpec l m.basecalling_model m.basecalling_config).2.2) := by
  induction l with
  | nil => intro m; simp [jsonAcqLoop, loopSpec]
  | cons a rest ih =>
    intro m
    unfold jsonAcqLoop loopSpec
    rw [fillModelStep_spec]
    rcases hm : specModelStep m.basecalling_model a with e | mo1
    · simp [Except.map]
    · simp only [Except.map]
      rw [fillConfigStep_spec]
      rcases hc : specConfigStep m.basecalling_config a with e | co1
      · simp [Except.map]
      · simp only [Except.map]
        rw [ih { m with basecalling_model := mo1, basecalling_config := co1 }]

theorem load_json_eval (m : BasecallsMetadata) (j : JVal) (acqs : JVal)
    (elems : List JVal)
    (hg : j.getItem "acquisitions" = .ok acqs)
    (hi : iterElems acqs = .ok elems) :
    load_from_report_json m (some j) =
      ({ m with
          json_data := some j
          basecalling_model :=
            (loopSpec elems m.basecalling_model m.basecalling_config).1
          basecalling_config :=
            (loopSpec elems m.basecalling_model m.basecalling_config).2.1 },
        match (loopSpec elems m.basecalling_model m.basecalling_config).2.2 with
        | some PyErr.key => none
        | x => x) := by
  unfold load_from_report_json
  simp only [hg, hi]
  rw [jsonAcqLoop_spec]
  rcases hspec : loopSpec elems m.basecalling_model m.basecalling_config
    with ⟨mo, co, er⟩
  rcases er with _ | e
  · rfl
  · rcases e <;> rfl

/-- C9 (confirmed): for a fresh metadata record, a well-formed HTML report
(three sections and the five required keys) and a JSON report with an
acquisitions list, loading both reports yields the same record whichever is
loaded first: the HTML-derived fields come from the HTML report and
basecalling_model/basecalling_config come from the JSON report's
acquisitions, all present simultaneously when the JSON report supplies
them. -/
theorem C9_merge_order (lines : List HtmlLine) (j j2 : JVal)
    (settings setup sw : List (String × JVal)) (fcid fct kt bcv mb : JVal)
    (acqs : JVal) (elems : List JVal)
    (hx : html_extract_json lines = .ok j)
    (hset : extract_section j "run_settings" = .ok settings)
    (hsu : extract_section j "run_setup" = .ok setup)
    (hsw : extract_section j "software_versions" = .ok sw)
    (h1 : dictGet setup "flow_cell_id" = some fcid)
    (h2 : dictGet setup "flow_cell_type" = some fct)
    (h3 : dictGet setup "kit_type" = some kt)
    (h4 : dictGet settings "basecalling" = some bcv)
    (h5 : dictGet settings "modified_basecalling" = some mb)
    (hg : j2.getItem "acquisitions" = .ok acqs)
    (hi : iterElems acqs = .ok elems) :
    (load_from_report_json (load_from_report_html {} lines).1 (some j2)).1 =
      (load_from_report_html (load_from_report_json {} (some j2)).1 lines).1 ∧
    (load_from_report_json (load_from_report_html {} lines).1 (some j2)).1.flow_cell_id
      = some fcid ∧
    (load_from_report_json (load_from_report_html {} lines).1 (some j2)).1.kit
      = some kt ∧
    (load_from_report_json (load_from_report_html {} lines).1 (some j2)).1.software_versions
      = some sw ∧
    (load_from_report_json (load_from_report_html {} lines).1 (some j2)).1.basecalling_model
      = (loopSpec elems none none).1 ∧
    (load_from_report_json (load_from_report_html {} lines).1 (some j2)).1.basecalling_config
      = (loopSpec elems none none).2.1 := by
  have hH := load_html_eval {} lines j settings setup sw fcid fct kt bcv mb
    hx hset hsu hsw h1 h2 h3 h4 h5
  have hJ := load_json_eval {} j2 acqs elems hg hi
  have hH2 := load_html_eval (load_from_report_json {} (some j2)).1 lines j
    settings setup sw fcid fct kt bcv mb hx hset hsu hsw h1 h2 h3 h4 h5
  have hJ2 := load_json_eval (load_from_report_html {} lines).1 j2 acqs elems hg hi
  rw [hH] at hJ2
  rw [hJ] at hH2
  rw [hH, hJ, hJ2, hH2]
  simp [htmlApply]

/-- One acquisition carrying both a model version and a config filename. -/
def c9acq : JVal :=
  JVal.obj [("acquisition_run_info", JVal.obj [("config_summary", JVal.obj [
    ("basecalling_model_version", JVal.str "dna_hac@v4.3.0"),
    ("basecalling_config_filename", JVal.str "cfg.cfg")])])]

def c9json : JVal := JVal.obj [("acquisitions", JVal.arr [c9acq])]

/-- Witness for C9: the theorem applied to concrete well-formed HTML and
JSON reports; both load orders agree and all fields are set. -/
theorem C9_witness :
    (load_from_report_json (load_from_report_html {} c4linesA).1 (some c9json)).1 =
      (load_from_report_html (load_from_report_json {} (some c9json)).1 c4linesA).1 ∧
    (load_from_report_json (load_from_report_html {} c4linesA).1
        (some c9json)).1.basecalling_model = some (JVal.str "dna_hac@v4.3.0") := by
  have h := C9_merge_order c4linesA (htmlDocFC "PAW11111") c9json
    [("basecalling", JVal.str "High-accuracy model 400bps"),
     ("modified_basecalling", JVal.str "Off")]
    [("flow_cell_id", JVal.str "PAW11111"), ("flow_cell_type", JVal.str "FLO-PRO114M"),
     ("kit_type", JVal.str "SQK-PCB114-24")]
    [("minknow", JVal.str "25.03.7")]
    (JVal.str "PAW11111") (JVal.str "FLO-PRO114M") (JVal.str "SQK-PCB114-24")
    (JVal.str "High-accuracy model 400bps") (JVal.str "Off")
    (JVal.arr [c9acq]) [c9acq]
    rfl rfl rfl rfl rfl rfl rfl rfl rfl rfl rfl
  exact ⟨h.1, h.2.2.2.2.1.trans rfl⟩

end Promethion
